import Mathlib

/-! OnlinePartyInterface.h: party data blob, presence permissions, completion results

A shallow embedding of the inline code of
`Engine/Source/Runtime/Online/OnlineSubsystem/Public/Interfaces/OnlinePartyInterface.h`
and theorems about it.

Conventions of the embedding

* `FString` is `String`; two keys are the same key when they are equal strings.
* `FVariantData` is declared in a header that is not part of the sources, so the
  development is parametric in it: it is the type variable `FVariantData`, and
  `default` stands for the default-constructed variant.
* A C++ method becomes a function of the receiver; `[out]` parameters are passed in
  and returned.
-/

namespace OnlineParty

/-! ## Definitions -/

/-- Modelled from the spec: the engine map `TMap<KeyType, ValueType>`, which is missing
from the sources. The spec calls the blob built on it "an ordered mapping of named
attributes" with the attribute name as "unique key"; a map is the list of its
(key, value) entries in iteration order. -/
abbrev TMap (KeyType ValueType : Type) := List (KeyType × ValueType)

/-- Modelled from the spec: `FOnlineKeyValuePairs<KeyType, ValueType>`, declared in
OnlineKeyValuePair.h, is missing from the sources; it is a `TMap` and adds no
operation to it. -/
abbrev FOnlineKeyValuePairs (KeyType ValueType : Type) := TMap KeyType ValueType

namespace TMap

variable {KeyType ValueType : Type} [DecidableEq KeyType]

/-- Modelled from the spec: `TMap::Find`, the value stored under `Key`, or nothing
(`nullptr`) when the map has no entry for it. -/
def Find : TMap KeyType ValueType → KeyType → Option ValueType
  | [], _ => none
  | (k, v) :: rest, Key => if k = Key then some v else Find rest Key

/-- Modelled from the spec: `TMap::Contains`. -/
def Contains (m : TMap KeyType ValueType) (Key : KeyType) : Bool :=
  (Find m Key).isSome

/-- Modelled from the spec: `TMap::FindOrAdd`, which leaves the map alone when it has
an entry for `Key` and otherwise adds one holding a default-constructed value. The
reference it returns designates the value of the entry for `Key`. -/
def FindOrAdd [Inhabited ValueType] (m : TMap KeyType ValueType)
    (Key : KeyType) : TMap KeyType ValueType :=
  if Contains m Key then m else m ++ [(Key, default)]

/-- Assignment through the reference returned by `Find`/`FindOrAdd`: the value of the
entry for `Key` is overwritten, every other entry and the order are kept. -/
def AssignAt : TMap KeyType ValueType → KeyType → ValueType →
    TMap KeyType ValueType
  | [], _, _ => []
  | (k, v) :: rest, Key, Value =>
      if k = Key then (k, Value) :: rest else (k, v) :: AssignAt rest Key Value

/-- Modelled from the spec: `TMap::Add` ("insert or overwrite"): the value of an
existing entry for `Key` is replaced, otherwise a new entry is added. -/
def Add : TMap KeyType ValueType → KeyType → ValueType →
    TMap KeyType ValueType
  | [], Key, Value => [(Key, Value)]
  | (k, v) :: rest, Key, Value =>
      if k = Key then (Key, Value) :: rest else (k, v) :: Add rest Key Value

/-- Modelled from the spec: `TMap::Empty`, which removes every entry of the map. -/
def Empty (_m : TMap KeyType ValueType) : TMap KeyType ValueType := []

/-- The keys of the map, in iteration order. -/
def Keys (m : TMap KeyType ValueType) : List KeyType :=
  m.map Prod.fst

/-- The map invariant: no key has two entries. -/
def UniqueKeys (m : TMap KeyType ValueType) : Prop :=
  (Keys m).Nodup

instance (m : TMap KeyType ValueType) : Decidable (UniqueKeys m) := by
  unfold UniqueKeys; infer_instance

end TMap

/-- The class `FOnlinePartyData`: its one data member. -/
structure FOnlinePartyData (FVariantData : Type) where
  /-- map of key/val attributes that represents the data -/
  KeyValAttrs : FOnlineKeyValuePairs String FVariantData
  deriving DecidableEq, Repr

namespace FOnlinePartyData

variable {FVariantData : Type}

/-- The constructor `FOnlinePartyData() {}`: an empty attribute map. -/
def new : FOnlinePartyData FVariantData := ⟨[]⟩

/-- What a call of `GetAttribute` leaves behind: the returned `bool`, the `[out]`
parameter and the receiver (the method is `const`). -/
structure GetAttributeCall (FVariantData : Type) where
  /-- the value returned -/
  bResult : Bool
  /-- the `[out]` parameter after the call -/
  OutAttrValue : FVariantData
  /-- the receiver after the call -/
  This : FOnlinePartyData FVariantData

/-- The method `bool GetAttribute(const FString& AttrName, FVariantData& OutAttrValue) const`.
`bResult` is initialised to `false` and returned; the body assigns only `OutAttrValue`. -/
def GetAttribute (This : FOnlinePartyData FVariantData) (AttrName : String)
    (OutAttrValue : FVariantData) : GetAttributeCall FVariantData :=
  let bResult := false
  let FoundValuePtr := This.KeyValAttrs.Find AttrName
  let OutAttrValue :=
    match FoundValuePtr with
    | some FoundValue => FoundValue
    | none => OutAttrValue
  { bResult := bResult, OutAttrValue := OutAttrValue, This := This }

/-- The method `void SetAttribute(const FString& AttrName, const FVariantData& AttrValue)`:
`FindOrAdd` followed by an assignment through the returned reference. -/
def SetAttribute [Inhabited FVariantData] (This : FOnlinePartyData FVariantData)
    (AttrName : String) (AttrValue : FVariantData) : FOnlinePartyData FVariantData :=
  let Found := This.KeyValAttrs.FindOrAdd AttrName
  { KeyValAttrs := Found.AssignAt AttrName AttrValue }

/-- The attribute `AttrName` is a key of the blob. -/
def HasKey (This : FOnlinePartyData FVariantData) (AttrName : String) : Prop :=
  AttrName ∈ This.KeyValAttrs.Keys

instance (This : FOnlinePartyData FVariantData) (AttrName : String) :
    Decidable (HasKey This AttrName) := by
  unfold HasKey; infer_instance

end FOnlinePartyData

/-! ### JSON form of the party data blob -/

/-- Modelled from the spec: `FString::Empty`, missing from the sources, which leaves
the string without characters. -/
def FString.Empty (_This : String) : String := ""

/-- Modelled from the spec: the JSON values of the engine's Json module (`FJsonValue`
and its subclasses), which is missing from the sources. The spec describes the
structured text form as "an array of `{Name, <value>}` records"; a value is null, a
boolean, a number, a string, an array of values or an object, the fields of an object
being a `TMap` from field name to value. Numbers are carried as integers, no code of
the header looks into one. -/
inductive FJsonValue
  | Null
  | Boolean (Value : Bool)
  | Number (Value : Int)
  | String (Value : String)
  | Array (Values : List FJsonValue)
  | Object (Values : List (String × FJsonValue))

/-- Modelled from the spec: `FJsonObject`, missing from the sources: the map `Values`
from field name to value. -/
abbrev FJsonObject := TMap String FJsonValue

namespace FJsonValue

/-- Modelled from the spec: `FJsonValue::AsObject`, missing from the sources: the
object held by an object value; for any other value no valid object. -/
def AsObject : FJsonValue → Option FJsonObject
  | .Object Values => some Values
  | _ => none

end FJsonValue

namespace FJsonObject

/-- The constructor `FJsonObject()`: an object without fields. -/
def new : FJsonObject := []

/-- Modelled from the spec: `FJsonObject::SetStringField`, missing from the sources:
the field is set to a string value, replacing a field of that name. -/
def SetStringField (This : FJsonObject) (FieldName StringValue : String) : FJsonObject :=
  TMap.Add This FieldName (FJsonValue.String StringValue)

/-- Modelled from the spec: `FJsonObject::SetArrayField`, missing from the sources:
the field is set to an array value, replacing a field of that name. -/
def SetArrayField (This : FJsonObject) (FieldName : String) (Array : List FJsonValue) :
    FJsonObject :=
  TMap.Add This FieldName (FJsonValue.Array Array)

/-- Modelled from the spec: `FJsonObject::HasTypedField<EJson::Array>`, missing from
the sources: the object has the field and its value is an array. -/
def HasTypedFieldArray (This : FJsonObject) (FieldName : String) : Bool :=
  match TMap.Find This FieldName with
  | some (FJsonValue.Array _) => true
  | _ => false

/-- Modelled from the spec: `FJsonObject::GetArrayField`, missing from the sources:
the elements of an array-valued field. -/
def GetArrayField (This : FJsonObject) (FieldName : String) : List FJsonValue :=
  match TMap.Find This FieldName with
  | some (FJsonValue.Array Values) => Values
  | _ => []

/-- Modelled from the spec: `FJsonObject::TryGetStringField`, missing from the sources.
The spec takes a record whose name is "not a string" for malformed: the call succeeds,
with the string, exactly when the object has the field and its value is a string. -/
def TryGetStringField (This : FJsonObject) (FieldName : String) : Option String :=
  match TMap.Find This FieldName with
  | some (FJsonValue.String Value) => some Value
  | _ => none

end FJsonObject

/-- Modelled from the spec: the JSON writer and reader (`TJsonWriter` with the condensed
print policy, `TJsonReader`, `FJsonSerializer`), missing from the sources and "treated
as an opaque codec" by the spec. `Serialize` is the text written for an object,
`Deserialize` the object read from a text, if the text can be read. -/
structure FJsonSerializer where
  /-- the text `FJsonSerializer::Serialize` writes for an object -/
  Serialize : FJsonObject → String
  /-- the object `FJsonSerializer::Deserialize` reads, when it succeeds with a valid object -/
  Deserialize : String → Option FJsonObject

/-- Modelled from the spec: the JSON codec of one variant value (`FVariantData::ToJson`
and `FVariantData::FromJson`), missing from the sources. `ToJson` is the object written
for a value; `FromJson` is the value read from an object, if the call returns true. -/
structure FVariantDataJson (FVariantData : Type) where
  /-- the object `FVariantData::ToJson` returns -/
  ToJson : FVariantData → FJsonObject
  /-- the value `FVariantData::FromJson` leaves in the variant when it returns true -/
  FromJson : FJsonObject → Option FVariantData

namespace FOnlinePartyData

variable {FVariantData : Type}

/-- The loop of `ToJson` over `KeyValAttrs`: one record per attribute, the encoding of
the value with its "Name" field set to the key, added at the end of `JsonProperties`. -/
def ToJsonProperties (Variant : FVariantDataJson FVariantData)
    (KeyValAttrs : FOnlineKeyValuePairs String FVariantData) : List FJsonValue :=
  KeyValAttrs.foldl
    (fun JsonProperties Iterator =>
      let PropertyName := Iterator.1
      let PropertyValue := Iterator.2
      let PropertyJson := Variant.ToJson PropertyValue
      let PropertyJson := PropertyJson.SetStringField "Name" PropertyName
      JsonProperties ++ [FJsonValue.Object PropertyJson])
    []

/-- The object `ToJson` hands to the writer: a new object whose "Attrs" field is the
array of records. -/
def ToJsonObject (Variant : FVariantDataJson FVariantData)
    (This : FOnlinePartyData FVariantData) : FJsonObject :=
  let JsonObject := FJsonObject.new
  let JsonProperties := ToJsonProperties Variant This.KeyValAttrs
  JsonObject.SetArrayField "Attrs" JsonProperties

/-- The method `void FOnlinePartyData::ToJson(FString& JsonString) const`; the result
is `JsonString` after the call. The string is emptied and the writer created on it
writes the object. -/
def ToJson (Json : FJsonSerializer) (Variant : FVariantDataJson FVariantData)
    (This : FOnlinePartyData FVariantData) (JsonString : String) : String :=
  let JsonString := FString.Empty JsonString
  let JsonObject := ToJsonObject Variant This
  JsonString ++ Json.Serialize JsonObject

/-- The body of the loop of `FromJson` over the elements of "Attrs": a record that is
an object with a non-empty string "Name" and a value the variant codec reads is added
to the map, any other element leaves the map as it is. -/
def FromJsonProperty (Variant : FVariantDataJson FVariantData)
    (KeyValAttrs : FOnlineKeyValuePairs String FVariantData)
    (JsonPropertyValue : FJsonValue) : FOnlineKeyValuePairs String FVariantData :=
  match JsonPropertyValue.AsObject with
  | some JsonPropertyObject =>
    match JsonPropertyObject.TryGetStringField "Name" with
    | some PropertyName =>
      if !PropertyName.isEmpty then
        match Variant.FromJson JsonPropertyObject with
        | some PropertyData => TMap.Add KeyValAttrs PropertyName PropertyData
        | none => KeyValAttrs
      else KeyValAttrs
    | none => KeyValAttrs
  | none => KeyValAttrs

/-- The method `void FOnlinePartyData::FromJson(const FString& JsonString)`; the result
is the receiver after the call. -/
def FromJson (Json : FJsonSerializer) (Variant : FVariantDataJson FVariantData)
    (This : FOnlinePartyData FVariantData) (JsonString : String) :
    FOnlinePartyData FVariantData :=
  let KeyValAttrs := TMap.Empty This.KeyValAttrs
  match Json.Deserialize JsonString with
  | some JsonObject =>
    if JsonObject.HasTypedFieldArray "Attrs" then
      let JsonProperties := JsonObject.GetArrayField "Attrs"
      { KeyValAttrs := JsonProperties.foldl (FromJsonProperty Variant) KeyValAttrs }
    else { KeyValAttrs := KeyValAttrs }
  | none => { KeyValAttrs := KeyValAttrs }

end FOnlinePartyData

/-! ### A JSON writer, a JSON reader and a variant codec to run the blob code on -/

namespace SampleJson

/-- The characters of a string with a backslash put before each quote and backslash. -/
def Escape : List Char → List Char
  | [] => []
  | c :: rest => if c = '"' ∨ c = '\\' then '\\' :: c :: Escape rest else c :: Escape rest

/-- A string between quotes. -/
def WriteString (Value : String) : List Char :=
  '"' :: Escape Value.data ++ ['"']

mutual
/-- Condensed JSON text of a value. -/
def WriteValue : FJsonValue → List Char
  | .Null => "null".data
  | .Boolean Value => if Value then "true".data else "false".data
  | .Number Value => (toString Value).data
  | .String Value => WriteString Value
  | .Array Values => '[' :: WriteElements Values ++ [']']
  | .Object Values => '{' :: WriteFields Values ++ ['}']
/-- The elements of an array, separated by commas. -/
def WriteElements : List FJsonValue → List Char
  | [] => []
  | [Value] => WriteValue Value
  | Value :: rest => WriteValue Value ++ ',' :: WriteElements rest
/-- The fields of an object, separated by commas. -/
def WriteFields : List (String × FJsonValue) → List Char
  | [] => []
  | [(Name, Value)] => WriteString Name ++ ':' :: WriteValue Value
  | (Name, Value) :: rest =>
      WriteString Name ++ ':' :: WriteValue Value ++ ',' :: WriteFields rest
end

/-- The characters of a string up to its closing quote, and the text after it. -/
def ReadString : List Char → Option (List Char × List Char)
  | [] => none
  | c :: rest =>
    if c = '"' then some ([], rest)
    else if c = '\\' then
      match rest with
      | [] => none
      | e :: rest2 => (ReadString rest2).map fun r => (e :: r.1, r.2)
    else (ReadString rest).map fun r => (c :: r.1, r.2)

/-- The leading decimal digits of a text as a number, and the text after them. -/
def ReadDigits : Nat → List Char → Nat × List Char
  | Value, [] => (Value, [])
  | Value, c :: rest =>
    if c.isDigit then ReadDigits (10 * Value + (c.toNat - '0'.toNat)) rest
    else (Value, c :: rest)

mutual
/-- One value at the start of a text, and the text after it; `Fuel` bounds the nesting
and the number of elements read. -/
def ReadValue : Nat → List Char → Option (FJsonValue × List Char)
  | 0, _ => none
  | _ + 1, [] => none
  | Fuel + 1, c :: rest =>
    if c = '"' then (ReadString rest).map fun r => (FJsonValue.String (String.mk r.1), r.2)
    else if c = '[' then
      match rest with
      | ']' :: rest2 => some (FJsonValue.Array [], rest2)
      | _ => (ReadElements Fuel rest).map fun r => (FJsonValue.Array r.1, r.2)
    else if c = '{' then
      match rest with
      | '}' :: rest2 => some (FJsonValue.Object [], rest2)
      | _ => (ReadFields Fuel rest).map fun r => (FJsonValue.Object r.1, r.2)
    else if c = '-' then
      match rest with
      | d :: _ =>
        if d.isDigit then
          some (FJsonValue.Number (- ((ReadDigits 0 rest).1 : Int)), (ReadDigits 0 rest).2)
        else none
      | [] => none
    else if c.isDigit then
      some (FJsonValue.Number ((ReadDigits 0 (c :: rest)).1 : Int), (ReadDigits 0 (c :: rest)).2)
    else
      match c :: rest with
      | 'n' :: 'u' :: 'l' :: 'l' :: rest2 => some (FJsonValue.Null, rest2)
      | 't' :: 'r' :: 'u' :: 'e' :: rest2 => some (FJsonValue.Boolean true, rest2)
      | 'f' :: 'a' :: 'l' :: 's' :: 'e' :: rest2 => some (FJsonValue.Boolean false, rest2)
      | _ => none
/-- The elements of an array up to its closing bracket, and the text after it. -/
def ReadElements : Nat → List Char → Option (List FJsonValue × List Char)
  | 0, _ => none
  | Fuel + 1, Text =>
    match ReadValue Fuel Text with
    | some (Value, ',' :: rest) => (ReadElements Fuel rest).map fun r => (Value :: r.1, r.2)
    | some (Value, ']' :: rest) => some ([Value], rest)
    | _ => none
/-- The fields of an object up to its closing brace, and the text after it. -/
def ReadFields : Nat → List Char → Option (List (String × FJsonValue) × List Char)
  | 0, _ => none
  | Fuel + 1, Text =>
    match Text with
    | '"' :: rest =>
      match ReadString rest with
      | some (Name, ':' :: rest2) =>
        match ReadValue Fuel rest2 with
        | some (Value, ',' :: rest3) =>
          (ReadFields Fuel rest3).map fun r => ((String.mk Name, Value) :: r.1, r.2)
        | some (Value, '}' :: rest3) => some ([(String.mk Name, Value)], rest3)
        | _ => none
      | _ => none
    | _ => none
end

/-- The writer: the condensed text of the object. -/
def Serialize (JsonObject : FJsonObject) : String :=
  String.mk (WriteValue (FJsonValue.Object JsonObject))

/-- The reader: the object a text spells, when the whole text is one object. A field
name met twice keeps its last value, as `TMap::Add` does. -/
def Deserialize (JsonString : String) : Option FJsonObject :=
  match ReadValue (JsonString.length + 1) JsonString.data with
  | some (FJsonValue.Object Values, []) =>
      some (Values.foldl (fun JsonObject Field => TMap.Add JsonObject Field.1 Field.2) [])
  | _ => none

/-- The writer and the reader as a JSON codec. -/
def Json : FJsonSerializer where
  Serialize := Serialize
  Deserialize := Deserialize

/-- A variant codec for string values: a value `v` is written as the object with
"Type" = "String" and "Value" = `v`, and read back from an object with these fields. -/
def StringVariant : FVariantDataJson String where
  ToJson := fun Value =>
    (FJsonObject.new.SetStringField "Type" "String").SetStringField "Value" Value
  FromJson := fun JsonObject =>
    match JsonObject.TryGetStringField "Type" with
    | some "String" => JsonObject.TryGetStringField "Value"
    | _ => none

end SampleJson

/-! ### Presence permissions -/

namespace PartySystemPermissions

/-- The enumeration `enum class EPermissionType : uint8`. -/
inductive EPermissionType
  | None
  | Leader
  | Friend
  | Anyone
  deriving DecidableEq, Repr, Fintype

/-- The enumerator values written in the declaration of `EPermissionType`. -/
def EPermissionType.toUInt8 : EPermissionType → Nat
  | .None => 0x0
  | .Leader => 0x1
  | .Friend => 0x2
  | .Anyone => 0x4

/-- The ordering `None < Leader < Friend < Anyone` of the specification, as the
position of a permission in that chain. -/
def EPermissionType.specRank : EPermissionType → Nat
  | .None => 0
  | .Leader => 1
  | .Friend => 2
  | .Anyone => 3

/-- The template `template<bool bIsValidPermissionCombo> struct FPublishPermissionValidator;`
is declared for both arguments and defined by the one specialisation
`template<> struct FPublishPermissionValidator<true> {}`. This says whether the
instance for an argument is a defined type, which a base class has to be. -/
def FPublishPermissionValidator.IsDefined : Bool → Bool
  | true => true
  | false => false

/-- The base class of `FPublishPermissionBuilder<PublishIdPermission, PublishKeyPermission>`
is `FPublishPermissionValidator<(PublishKeyPermission <= PublishIdPermission)>`, a
comparison of the enumerators by value; the builder is accepted when that base class
is defined. -/
def FPublishPermissionBuilder.IsAccepted
    (PublishIdPermission PublishKeyPermission : EPermissionType) : Bool :=
  FPublishPermissionValidator.IsDefined
    (decide (PublishKeyPermission.toUInt8 ≤ PublishIdPermission.toUInt8))

/-- The member `static const uint8 Value =
static_cast<uint8>(PublishIdPermission) << 4 | static_cast<uint8>(PublishKeyPermission)`,
computed on promoted integers and stored in a `uint8`. -/
def FPublishPermissionBuilder.Value
    (PublishIdPermission PublishKeyPermission : EPermissionType) : Nat :=
  ((PublishIdPermission.toUInt8 <<< 4) ||| PublishKeyPermission.toUInt8) % 2 ^ 8

/-- The enumeration `enum class EPresencePermissions : uint8`. -/
inductive EPresencePermissions
  | DoNotPublish
  | LeaderPublishIdNonePublishKey
  | LeaderPublishIdLeaderPublishKey
  | FriendPublishIdNonePublishKey
  | FriendPublishIdLeaderPublishKey
  | FriendPublishIdFriendPublishKey
  | AnyonePublishIdNonePublishKey
  | AnyonePublishIdLeaderPublishKey
  | AnyonePublishIdFriendPublishKey
  | AnyonePublishIdAnyonePublishKey
  deriving DecidableEq, Repr, Fintype

/-- The template arguments `(PublishIdPermission, PublishKeyPermission)` of the builder
that initialises each enumerator of `EPresencePermissions`. -/
def EPresencePermissions.BuilderArguments :
    EPresencePermissions → EPermissionType × EPermissionType
  | .DoNotPublish => (.None, .None)
  | .LeaderPublishIdNonePublishKey => (.Leader, .None)
  | .LeaderPublishIdLeaderPublishKey => (.Leader, .Leader)
  | .FriendPublishIdNonePublishKey => (.Friend, .None)
  | .FriendPublishIdLeaderPublishKey => (.Friend, .Leader)
  | .FriendPublishIdFriendPublishKey => (.Friend, .Friend)
  | .AnyonePublishIdNonePublishKey => (.Anyone, .None)
  | .AnyonePublishIdLeaderPublishKey => (.Anyone, .Leader)
  | .AnyonePublishIdFriendPublishKey => (.Anyone, .Friend)
  | .AnyonePublishIdAnyonePublishKey => (.Anyone, .Anyone)

/-- The value of an enumerator of `EPresencePermissions`: the `Value` of its builder. -/
def EPresencePermissions.toUInt8 (Permissions : EPresencePermissions) : Nat :=
  FPublishPermissionBuilder.Value Permissions.BuilderArguments.1
    Permissions.BuilderArguments.2

/-- The permission with a given enumerator value, if there is one. -/
def EPermissionType.ofUInt8 (Value : Nat) : Option EPermissionType :=
  if Value = 0x0 then some .None
  else if Value = 0x1 then some .Leader
  else if Value = 0x2 then some .Friend
  else if Value = 0x4 then some .Anyone
  else none

/-- The id permission of a presence-permission value: its high nibble. -/
def DecodePublishIdPermission (Value : Nat) : Option EPermissionType :=
  EPermissionType.ofUInt8 (Value >>> 4)

/-- The key permission of a presence-permission value: its low nibble. -/
def DecodePublishKeyPermission (Value : Nat) : Option EPermissionType :=
  EPermissionType.ofUInt8 (Value &&& 0x0F)

/-- The enumeration `enum class EInvitePermissions`. -/
inductive EInvitePermissions
  | Leader
  | Friends
  | Anyone
  deriving DecidableEq, Repr, Fintype

/-- The ordering requirement of the specification on a presence-permission value: it
decodes to an id permission and a key permission, and the key visibility is at most the
id visibility in `None < Leader < Friend < Anyone`. -/
def KeyVisibilityLeIdVisibility (Value : Nat) : Prop :=
  ∃ IdPermission KeyPermission : EPermissionType,
    DecodePublishIdPermission Value = some IdPermission
    ∧ DecodePublishKeyPermission Value = some KeyPermission
    ∧ KeyPermission.specRank ≤ IdPermission.specRank

end PartySystemPermissions

/-- The enumeration `enum class EJoinRequestAction`. -/
inductive EJoinRequestAction
  | Manual
  | AutoApprove
  | AutoReject
  deriving DecidableEq, Repr, Fintype

/-- The struct `FPartyConfiguration`: its data members, in declaration order. -/
structure FPartyConfiguration (FVariantData : Type) where
  /-- should publish info to presence -/
  JoinRequestAction : EJoinRequestAction
  /-- Permission for how the party can be -/
  PresencePermissions : PartySystemPermissions.EPresencePermissions
  /-- Permission who can send invites -/
  InvitePermissions : PartySystemPermissions.EInvitePermissions
  /-- should remove on disconnection -/
  bShouldRemoveOnDisconnection : Bool
  /-- is accepting members -/
  bIsAcceptingMembers : Bool
  /-- not accepting members reason -/
  NotAcceptingMembersReason : Int
  /-- Maximum active members allowed. 0 means no maximum. -/
  MaxMembers : Int
  /-- Human readable nickname -/
  Nickname : String
  /-- Human readable description -/
  Description : String
  /-- Human readable password for party. -/
  Password : String
  /-- clients can add whatever data they want for configuration options -/
  ClientConfigData : FOnlinePartyData FVariantData

/-- The constructor `FPartyConfiguration()`: the member initialiser list, and the
default constructors of the members it does not name. -/
def FPartyConfiguration.new {FVariantData : Type} : FPartyConfiguration FVariantData where
  JoinRequestAction := EJoinRequestAction.Manual
  PresencePermissions := PartySystemPermissions.EPresencePermissions.AnyonePublishIdAnyonePublishKey
  InvitePermissions := PartySystemPermissions.EInvitePermissions.Leader
  bShouldRemoveOnDisconnection := false
  bIsAcceptingMembers := false
  NotAcceptingMembersReason := 0
  MaxMembers := 0
  Nickname := ""
  Description := ""
  Password := ""
  ClientConfigData := FOnlinePartyData.new

/-! ### Completion results -/

/-- The values C++ gives the enumerators of an enumeration, in declaration order: an
enumerator with an initialiser has the value written, one without has the value of the
enumerator before it plus one (`Next`, zero for the first). -/
def EnumeratorValues : Int → List (Option Int) → List Int
  | _, [] => []
  | _, some Initialiser :: rest => Initialiser :: EnumeratorValues (Initialiser + 1) rest
  | Next, none :: rest => Next :: EnumeratorValues (Next + 1) rest

/-- The value of one enumerator of a declaration, a list of enumerators each with its
initialiser if it has one; nothing for an enumerator the declaration does not list. -/
def EnumeratorValue {E : Type} [DecidableEq E] (Declaration : List (E × Option Int))
    (Enumerator : E) : Option Int :=
  ((Declaration.map Prod.fst).zip
    (EnumeratorValues 0 (Declaration.map Prod.snd))).lookup Enumerator

/-- The integer an enumerator converts to (zero for one the declaration does not
list). -/
def EnumeratorToInt {E : Type} [DecidableEq E] (Declaration : List (E × Option Int))
    (Enumerator : E) : Int :=
  (EnumeratorValue Declaration Enumerator).getD 0

/-- The numbering the specification requires of a completion-result enumeration: every
enumerator is declared, `UnknownInternalFailure` is 0, `Succeeded` is 1 and every other
enumerator is negative. -/
def CompletionResultNumbering {E : Type} [DecidableEq E] [Fintype E]
    (Declaration : List (E × Option Int)) (UnknownInternalFailure Succeeded : E) : Prop :=
  (∀ Enumerator : E, (EnumeratorValue Declaration Enumerator).isSome = true)
  ∧ EnumeratorToInt Declaration UnknownInternalFailure = 0
  ∧ EnumeratorToInt Declaration Succeeded = 1
  ∧ ∀ Enumerator : E, Enumerator ≠ UnknownInternalFailure → Enumerator ≠ Succeeded →
      EnumeratorToInt Declaration Enumerator < 0

instance {E : Type} [DecidableEq E] [Fintype E] (Declaration : List (E × Option Int))
    (UnknownInternalFailure Succeeded : E) :
    Decidable (CompletionResultNumbering Declaration UnknownInternalFailure Succeeded) := by
  unfold CompletionResultNumbering; infer_instance

/-- The enumeration `enum class ECreatePartyCompletionResult`. -/
inductive ECreatePartyCompletionResult
  | UnknownClientFailure
  | AlreadyInPartyOfSpecifiedType
  | AlreadyCreatingParty
  | AlreadyInParty
  | FailedToCreateMucRoom
  | NoResponse
  | UnknownInternalFailure
  | Succeeded
  deriving DecidableEq, Repr, Fintype

/-- The declaration of `ECreatePartyCompletionResult`: its enumerators in order, each with the
initialiser the source writes for it. -/
def ECreatePartyCompletionResult.Declaration : List (ECreatePartyCompletionResult × Option Int) :=
  [ (.UnknownClientFailure, some (-100)),
    (.AlreadyInPartyOfSpecifiedType, none),
    (.AlreadyCreatingParty, none),
    (.AlreadyInParty, none),
    (.FailedToCreateMucRoom, none),
    (.NoResponse, none),
    (.UnknownInternalFailure, some 0),
    (.Succeeded, some 1) ]

/-- The integer value of an enumerator of `ECreatePartyCompletionResult`. -/
def ECreatePartyCompletionResult.toInt (Value : ECreatePartyCompletionResult) : Int :=
  EnumeratorToInt ECreatePartyCompletionResult.Declaration Value

/-- The enumeration `enum class EJoinPartyCompletionResult`. -/
inductive EJoinPartyCompletionResult
  | UnknownClientFailure
  | BadBuild
  | JoinInfoInvalid
  | AlreadyInPartyOfSpecifiedType
  | AlreadyJoiningParty
  | AlreadyInParty
  | MessagingFailure
  | PartyNotInPendingState
  | ResponseFromUnexpectedUser
  | NoSpace
  | NotApproved
  | RequesteeNotMember
  | RequesteeNotLeader
  | NoResponse
  | UnknownInternalFailure
  | Succeeded
  deriving DecidableEq, Repr, Fintype

/-- The declaration of `EJoinPartyCompletionResult`: its enumerators in order, each with the
initialiser the source writes for it. -/
def EJoinPartyCompletionResult.Declaration : List (EJoinPartyCompletionResult × Option Int) :=
  [ (.UnknownClientFailure, some (-100)),
    (.BadBuild, none),
    (.JoinInfoInvalid, none),
    (.AlreadyInPartyOfSpecifiedType, none),
    (.AlreadyJoiningParty, none),
    (.AlreadyInParty, none),
    (.MessagingFailure, none),
    (.PartyNotInPendingState, none),
    (.ResponseFromUnexpectedUser, none),
    (.NoSpace, none),
    (.NotApproved, none),
    (.RequesteeNotMember, none),
    (.RequesteeNotLeader, none),
    (.NoResponse, none),
    (.UnknownInternalFailure, some 0),
    (.Succeeded, some 1) ]

/-- The integer value of an enumerator of `EJoinPartyCompletionResult`. -/
def EJoinPartyCompletionResult.toInt (Value : EJoinPartyCompletionResult) : Int :=
  EnumeratorToInt EJoinPartyCompletionResult.Declaration Value

/-- The enumeration `enum class ELeavePartyCompletionResult`. -/
inductive ELeavePartyCompletionResult
  | UnknownClientFailure
  | LeavePending
  | UnknownLocalUser
  | UnknownParty
  | NotMember
  | MessagingFailure
  | NoResponse
  | UnknownTransportFailure
  | UnknownInternalFailure
  | Succeeded
  deriving DecidableEq, Repr, Fintype

/-- The declaration of `ELeavePartyCompletionResult`: its enumerators in order, each with the
initialiser the source writes for it. -/
def ELeavePartyCompletionResult.Declaration : List (ELeavePartyCompletionResult × Option Int) :=
  [ (.UnknownClientFailure, some (-100)),
    (.LeavePending, none),
    (.UnknownLocalUser, none),
    (.UnknownParty, none),
    (.NotMember, none),
    (.MessagingFailure, none),
    (.NoResponse, none),
    (.UnknownTransportFailure, none),
    (.UnknownInternalFailure, some 0),
    (.Succeeded, some 1) ]

/-- The integer value of an enumerator of `ELeavePartyCompletionResult`. -/
def ELeavePartyCompletionResult.toInt (Value : ELeavePartyCompletionResult) : Int :=
  EnumeratorToInt ELeavePartyCompletionResult.Declaration Value

/-- The enumeration `enum class EUpdateConfigCompletionResult`. -/
inductive EUpdateConfigCompletionResult
  | UnknownClientFailure
  | UnknownParty
  | LocalMemberNotMember
  | LocalMemberNotLeader
  | RemoteMemberNotMember
  | MessagingFailure
  | NoResponse
  | UnknownInternalFailure
  | Succeeded
  deriving DecidableEq, Repr, Fintype

/-- The declaration of `EUpdateConfigCompletionResult`: its enumerators in order, each with the
initialiser the source writes for it. -/
def EUpdateConfigCompletionResult.Declaration : List (EUpdateConfigCompletionResult × Option Int) :=
  [ (.UnknownClientFailure, some (-100)),
    (.UnknownParty, none),
    (.LocalMemberNotMember, none),
    (.LocalMemberNotLeader, none),
    (.RemoteMemberNotMember, none),
    (.MessagingFailure, none),
    (.NoResponse, none),
    (.UnknownInternalFailure, some 0),
    (.Succeeded, some 1) ]

/-- The integer value of an enumerator of `EUpdateConfigCompletionResult`. -/
def EUpdateConfigCompletionResult.toInt (Value : EUpdateConfigCompletionResult) : Int :=
  EnumeratorToInt EUpdateConfigCompletionResult.Declaration Value

/-- The enumeration `enum class ERequestPartyInvitationCompletionResult`. -/
inductive ERequestPartyInvitationCompletionResult
  | NotLoggedIn
  | InvitePending
  | AlreadyInParty
  | PartyFull
  | NoPermission
  | UnknownInternalFailure
  | Succeeded
  deriving DecidableEq, Repr, Fintype

/-- The declaration of `ERequestPartyInvitationCompletionResult`: its enumerators in order, each with the
initialiser the source writes for it. -/
def ERequestPartyInvitationCompletionResult.Declaration : List (ERequestPartyInvitationCompletionResult × Option Int) :=
  [ (.NotLoggedIn, some (-100)),
    (.InvitePending, none),
    (.AlreadyInParty, none),
    (.PartyFull, none),
    (.NoPermission, none),
    (.UnknownInternalFailure, some 0),
    (.Succeeded, some 1) ]

/-- The integer value of an enumerator of `ERequestPartyInvitationCompletionResult`. -/
def ERequestPartyInvitationCompletionResult.toInt (Value : ERequestPartyInvitationCompletionResult) : Int :=
  EnumeratorToInt ERequestPartyInvitationCompletionResult.Declaration Value

/-- The enumeration `enum class ESendPartyInvitationCompletionResult`. -/
inductive ESendPartyInvitationCompletionResult
  | NotLoggedIn
  | InvitePending
  | AlreadyInParty
  | PartyFull
  | NoPermission
  | UnknownInternalFailure
  | Succeeded
  deriving DecidableEq, Repr, Fintype

/-- The declaration of `ESendPartyInvitationCompletionResult`: its enumerators in order, each with the
initialiser the source writes for it. -/
def ESendPartyInvitationCompletionResult.Declaration : List (ESendPartyInvitationCompletionResult × Option Int) :=
  [ (.NotLoggedIn, some (-100)),
    (.InvitePending, none),
    (.AlreadyInParty, none),
    (.PartyFull, none),
    (.NoPermission, none),
    (.UnknownInternalFailure, some 0),
    (.Succeeded, some 1) ]

/-- The integer value of an enumerator of `ESendPartyInvitationCompletionResult`. -/
def ESendPartyInvitationCompletionResult.toInt (Value : ESendPartyInvitationCompletionResult) : Int :=
  EnumeratorToInt ESendPartyInvitationCompletionResult.Declaration Value

/-- The enumeration `enum class EAcceptPartyInvitationCompletionResult`. -/
inductive EAcceptPartyInvitationCompletionResult
  | NotLoggedIn
  | InvitePending
  | AlreadyInParty
  | PartyFull
  | NoPermission
  | UnknownInternalFailure
  | Succeeded
  deriving DecidableEq, Repr, Fintype

/-- The declaration of `EAcceptPartyInvitationCompletionResult`: its enumerators in order, each with the
initialiser the source writes for it. -/
def EAcceptPartyInvitationCompletionResult.Declaration : List (EAcceptPartyInvitationCompletionResult × Option Int) :=
  [ (.NotLoggedIn, some (-100)),
    (.InvitePending, none),
    (.AlreadyInParty, none),
    (.PartyFull, none),
    (.NoPermission, none),
    (.UnknownInternalFailure, some 0),
    (.Succeeded, some 1) ]

/-- The integer value of an enumerator of `EAcceptPartyInvitationCompletionResult`. -/
def EAcceptPartyInvitationCompletionResult.toInt (Value : EAcceptPartyInvitationCompletionResult) : Int :=
  EnumeratorToInt EAcceptPartyInvitationCompletionResult.Declaration Value

/-- The enumeration `enum class ERejectPartyInvitationCompletionResult`. -/
inductive ERejectPartyInvitationCompletionResult
  | NotLoggedIn
  | InvitePending
  | AlreadyInParty
  | PartyFull
  | NoPermission
  | UnknownInternalFailure
  | Succeeded
  deriving DecidableEq, Repr, Fintype

/-- The declaration of `ERejectPartyInvitationCompletionResult`: its enumerators in order, each with the
initialiser the source writes for it. -/
def ERejectPartyInvitationCompletionResult.Declaration : List (ERejectPartyInvitationCompletionResult × Option Int) :=
  [ (.NotLoggedIn, some (-100)),
    (.InvitePending, none),
    (.AlreadyInParty, none),
    (.PartyFull, none),
    (.NoPermission, none),
    (.UnknownInternalFailure, some 0),
    (.Succeeded, some 1) ]

/-- The integer value of an enumerator of `ERejectPartyInvitationCompletionResult`. -/
def ERejectPartyInvitationCompletionResult.toInt (Value : ERejectPartyInvitationCompletionResult) : Int :=
  EnumeratorToInt ERejectPartyInvitationCompletionResult.Declaration Value

/-- The enumeration `enum class EKickMemberCompletionResult`. -/
inductive EKickMemberCompletionResult
  | UnknownClientFailure
  | UnknownParty
  | LocalMemberNotMember
  | LocalMemberNotLeader
  | RemoteMemberNotMember
  | MessagingFailure
  | NoResponse
  | UnknownInternalFailure
  | Succeeded
  deriving DecidableEq, Repr, Fintype

/-- The declaration of `EKickMemberCompletionResult`: its enumerators in order, each with the
initialiser the source writes for it. -/
def EKickMemberCompletionResult.Declaration : List (EKickMemberCompletionResult × Option Int) :=
  [ (.UnknownClientFailure, some (-100)),
    (.UnknownParty, none),
    (.LocalMemberNotMember, none),
    (.LocalMemberNotLeader, none),
    (.RemoteMemberNotMember, none),
    (.MessagingFailure, none),
    (.NoResponse, none),
    (.UnknownInternalFailure, some 0),
    (.Succeeded, some 1) ]

/-- The integer value of an enumerator of `EKickMemberCompletionResult`. -/
def EKickMemberCompletionResult.toInt (Value : EKickMemberCompletionResult) : Int :=
  EnumeratorToInt EKickMemberCompletionResult.Declaration Value

/-- The enumeration `enum class EPromoteMemberCompletionResult`. -/
inductive EPromoteMemberCompletionResult
  | UnknownClientFailure
  | UnknownServiceFailure
  | UnknownParty
  | LocalMemberNotMember
  | LocalMemberNotLeader
  | PromotionAlreadyPending
  | TargetIsSelf
  | TargetNotMember
  | MessagingFailure
  | NoResponse
  | UnknownInternalFailure
  | Succeeded
  deriving DecidableEq, Repr, Fintype

/-- The declaration of `EPromoteMemberCompletionResult`: its enumerators in order, each with the
initialiser the source writes for it. -/
def EPromoteMemberCompletionResult.Declaration : List (EPromoteMemberCompletionResult × Option Int) :=
  [ (.UnknownClientFailure, some (-100)),
    (.UnknownServiceFailure, none),
    (.UnknownParty, none),
    (.LocalMemberNotMember, none),
    (.LocalMemberNotLeader, none),
    (.PromotionAlreadyPending, none),
    (.TargetIsSelf, none),
    (.TargetNotMember, none),
    (.MessagingFailure, none),
    (.NoResponse, none),
    (.UnknownInternalFailure, some 0),
    (.Succeeded, some 1) ]

/-- The integer value of an enumerator of `EPromoteMemberCompletionResult`. -/
def EPromoteMemberCompletionResult.toInt (Value : EPromoteMemberCompletionResult) : Int :=
  EnumeratorToInt EPromoteMemberCompletionResult.Declaration Value

/-! ### Names of completion results -/

/-- The enumerators of `ECreatePartyCompletionResult` as the source spells them. -/
def ECreatePartyCompletionResult.Identifier : ECreatePartyCompletionResult → String
  | .UnknownClientFailure => "UnknownClientFailure"
  | .AlreadyInPartyOfSpecifiedType => "AlreadyInPartyOfSpecifiedType"
  | .AlreadyCreatingParty => "AlreadyCreatingParty"
  | .AlreadyInParty => "AlreadyInParty"
  | .FailedToCreateMucRoom => "FailedToCreateMucRoom"
  | .NoResponse => "NoResponse"
  | .UnknownInternalFailure => "UnknownInternalFailure"
  | .Succeeded => "Succeeded"

/-- The function `inline const TCHAR* ToString(const ECreatePartyCompletionResult Value)`: a `switch`
with 7 `case` labels, and `return TEXT("")` after it for a value no label names. -/
def ECreatePartyCompletionResult.ToString (Value : ECreatePartyCompletionResult) : String :=
  match Value with
  | .UnknownClientFailure => "UnknownClientFailure"
  | .AlreadyCreatingParty => "AlreadyCreatingParty"
  | .AlreadyInParty => "AlreadyInParty"
  | .FailedToCreateMucRoom => "FailedToCreateMucRoom"
  | .NoResponse => "NoResponse"
  | .UnknownInternalFailure => "UnknownInternalFailure"
  | .Succeeded => "Succeeded"
  | _ => ""

/-- The enumerators of `ESendPartyInvitationCompletionResult` as the source spells them. -/
def ESendPartyInvitationCompletionResult.Identifier : ESendPartyInvitationCompletionResult → String
  | .NotLoggedIn => "NotLoggedIn"
  | .InvitePending => "InvitePending"
  | .AlreadyInParty => "AlreadyInParty"
  | .PartyFull => "PartyFull"
  | .NoPermission => "NoPermission"
  | .UnknownInternalFailure => "UnknownInternalFailure"
  | .Succeeded => "Succeeded"

/-- The function `inline const TCHAR* ToString(const ESendPartyInvitationCompletionResult Value)`: a `switch`
with 7 `case` labels, and `return TEXT("")` after it for a value no label names. -/
def ESendPartyInvitationCompletionResult.ToString (Value : ESendPartyInvitationCompletionResult) : String :=
  match Value with
  | .NotLoggedIn => "NotLoggedIn"
  | .InvitePending => "InvitePending"
  | .AlreadyInParty => "AlreadyInParty"
  | .PartyFull => "PartyFull"
  | .NoPermission => "NoPermission"
  | .UnknownInternalFailure => "UnknownInternalFailure"
  | .Succeeded => "Succeeded"

/-- The enumerators of `EJoinPartyCompletionResult` as the source spells them. -/
def EJoinPartyCompletionResult.Identifier : EJoinPartyCompletionResult → String
  | .UnknownClientFailure => "UnknownClientFailure"
  | .BadBuild => "BadBuild"
  | .JoinInfoInvalid => "JoinInfoInvalid"
  | .AlreadyInPartyOfSpecifiedType => "AlreadyInPartyOfSpecifiedType"
  | .AlreadyJoiningParty => "AlreadyJoiningParty"
  | .AlreadyInParty => "AlreadyInParty"
  | .MessagingFailure => "MessagingFailure"
  | .PartyNotInPendingState => "PartyNotInPendingState"
  | .ResponseFromUnexpectedUser => "ResponseFromUnexpectedUser"
  | .NoSpace => "NoSpace"
  | .NotApproved => "NotApproved"
  | .RequesteeNotMember => "RequesteeNotMember"
  | .RequesteeNotLeader => "RequesteeNotLeader"
  | .NoResponse => "NoResponse"
  | .UnknownInternalFailure => "UnknownInternalFailure"
  | .Succeeded => "Succeeded"

/-- The function `inline const TCHAR* ToString(const EJoinPartyCompletionResult Value)`: a `switch`
with 14 `case` labels, and `return TEXT("")` after it for a value no label names. -/
def EJoinPartyCompletionResult.ToString (Value : EJoinPartyCompletionResult) : String :=
  match Value with
  | .UnknownClientFailure => "UnknownClientFailure"
  | .JoinInfoInvalid => "JoinInfoInvalid"
  | .AlreadyJoiningParty => "AlreadyJoiningParty"
  | .AlreadyInParty => "AlreadyInParty"
  | .MessagingFailure => "MessagingFailure"
  | .PartyNotInPendingState => "PartyNotInPendingState"
  | .ResponseFromUnexpectedUser => "ResponseFromUnexpectedUser"
  | .NoSpace => "NoSpace"
  | .NotApproved => "NotApproved"
  | .RequesteeNotMember => "RequesteeNotMember"
  | .RequesteeNotLeader => "RequesteeNotLeader"
  | .NoResponse => "NoResponse"
  | .UnknownInternalFailure => "UnknownInternalFailure"
  | .Succeeded => "Succeeded"
  | _ => ""

/-- The enumerators of `ELeavePartyCompletionResult` as the source spells them. -/
def ELeavePartyCompletionResult.Identifier : ELeavePartyCompletionResult → String
  | .UnknownClientFailure => "UnknownClientFailure"
  | .LeavePending => "LeavePending"
  | .UnknownLocalUser => "UnknownLocalUser"
  | .UnknownParty => "UnknownParty"
  | .NotMember => "NotMember"
  | .MessagingFailure => "MessagingFailure"
  | .NoResponse => "NoResponse"
  | .UnknownTransportFailure => "UnknownTransportFailure"
  | .UnknownInternalFailure => "UnknownInternalFailure"
  | .Succeeded => "Succeeded"

/-- The function `inline const TCHAR* ToString(const ELeavePartyCompletionResult Value)`: a `switch`
with 9 `case` labels, and `return TEXT("")` after it for a value no label names. -/
def ELeavePartyCompletionResult.ToString (Value : ELeavePartyCompletionResult) : String :=
  match Value with
  | .UnknownClientFailure => "UnknownClientFailure"
  | .LeavePending => "LeavePending"
  | .UnknownLocalUser => "UnknownLocalUser"
  | .UnknownParty => "UnknownParty"
  | .MessagingFailure => "MessagingFailure"
  | .NoResponse => "NoResponse"
  | .UnknownTransportFailure => "UnknownTransportFailure"
  | .UnknownInternalFailure => "UnknownInternalFailure"
  | .Succeeded => "Succeeded"
  | _ => ""

/-- The enumerators of `EUpdateConfigCompletionResult` as the source spells them. -/
def EUpdateConfigCompletionResult.Identifier : EUpdateConfigCompletionResult → String
  | .UnknownClientFailure => "UnknownClientFailure"
  | .UnknownParty => "UnknownParty"
  | .LocalMemberNotMember => "LocalMemberNotMember"
  | .LocalMemberNotLeader => "LocalMemberNotLeader"
  | .RemoteMemberNotMember => "RemoteMemberNotMember"
  | .MessagingFailure => "MessagingFailure"
  | .NoResponse => "NoResponse"
  | .UnknownInternalFailure => "UnknownInternalFailure"
  | .Succeeded => "Succeeded"

/-- The function `inline const TCHAR* ToString(const EUpdateConfigCompletionResult Value)`: a `switch`
with 9 `case` labels, and `return TEXT("")` after it for a value no label names. -/
def EUpdateConfigCompletionResult.ToString (Value : EUpdateConfigCompletionResult) : String :=
  match Value with
  | .UnknownClientFailure => "UnknownClientFailure"
  | .UnknownParty => "UnknownParty"
  | .LocalMemberNotMember => "LocalMemberNotMember"
  | .LocalMemberNotLeader => "LocalMemberNotLeader"
  | .RemoteMemberNotMember => "RemoteMemberNotMember"
  | .MessagingFailure => "MessagingFailure"
  | .NoResponse => "NoResponse"
  | .UnknownInternalFailure => "UnknownInternalFailure"
  | .Succeeded => "Succeeded"

/-- The enumerators of `EKickMemberCompletionResult` as the source spells them. -/
def EKickMemberCompletionResult.Identifier : EKickMemberCompletionResult → String
  | .UnknownClientFailure => "UnknownClientFailure"
  | .UnknownParty => "UnknownParty"
  | .LocalMemberNotMember => "LocalMemberNotMember"
  | .LocalMemberNotLeader => "LocalMemberNotLeader"
  | .RemoteMemberNotMember => "RemoteMemberNotMember"
  | .MessagingFailure => "MessagingFailure"
  | .NoResponse => "NoResponse"
  | .UnknownInternalFailure => "UnknownInternalFailure"
  | .Succeeded => "Succeeded"

/-- The function `inline const TCHAR* ToString(const EKickMemberCompletionResult Value)`: a `switch`
with 9 `case` labels, and `return TEXT("")` after it for a value no label names. -/
def EKickMemberCompletionResult.ToString (Value : EKickMemberCompletionResult) : String :=
  match Value with
  | .UnknownClientFailure => "UnknownClientFailure"
  | .UnknownParty => "UnknownParty"
  | .LocalMemberNotMember => "LocalMemberNotMember"
  | .LocalMemberNotLeader => "LocalMemberNotLeader"
  | .RemoteMemberNotMember => "RemoteMemberNotMember"
  | .MessagingFailure => "MessagingFailure"
  | .NoResponse => "NoResponse"
  | .UnknownInternalFailure => "UnknownInternalFailure"
  | .Succeeded => "Succeeded"

/-- The enumerators of `EPromoteMemberCompletionResult` as the source spells them. -/
def EPromoteMemberCompletionResult.Identifier : EPromoteMemberCompletionResult → String
  | .UnknownClientFailure => "UnknownClientFailure"
  | .UnknownServiceFailure => "UnknownServiceFailure"
  | .UnknownParty => "UnknownParty"
  | .LocalMemberNotMember => "LocalMemberNotMember"
  | .LocalMemberNotLeader => "LocalMemberNotLeader"
  | .PromotionAlreadyPending => "PromotionAlreadyPending"
  | .TargetIsSelf => "TargetIsSelf"
  | .TargetNotMember => "TargetNotMember"
  | .MessagingFailure => "MessagingFailure"
  | .NoResponse => "NoResponse"
  | .UnknownInternalFailure => "UnknownInternalFailure"
  | .Succeeded => "Succeeded"

/-- The function `inline const TCHAR* ToString(const EPromoteMemberCompletionResult Value)`: a `switch`
with 10 `case` labels, and `return TEXT("")` after it for a value no label names. -/
def EPromoteMemberCompletionResult.ToString (Value : EPromoteMemberCompletionResult) : String :=
  match Value with
  | .UnknownClientFailure => "UnknownClientFailure"
  | .UnknownParty => "UnknownParty"
  | .LocalMemberNotMember => "LocalMemberNotMember"
  | .LocalMemberNotLeader => "LocalMemberNotLeader"
  | .TargetIsSelf => "TargetIsSelf"
  | .TargetNotMember => "TargetNotMember"
  | .MessagingFailure => "MessagingFailure"
  | .NoResponse => "NoResponse"
  | .UnknownInternalFailure => "UnknownInternalFailure"
  | .Succeeded => "Succeeded"
  | _ => ""

/-! ### Names of presence permissions and the presence aliases -/

namespace PartySystemPermissions

/-- The enumerators of `EPermissionType` as the source spells them. -/
def EPermissionType.Identifier : EPermissionType → String
  | .None => "None"
  | .Leader => "Leader"
  | .Friend => "Friend"
  | .Anyone => "Anyone"

/-- The function `inline const TCHAR* ToString(const PartySystemPermissions::EPresencePermissions
Value)`: a `switch` with ten `case` labels, and `return TEXT("")` after it. -/
def EPresencePermissions.ToString (Value : EPresencePermissions) : String :=
  match Value with
  | .DoNotPublish => "DoNotPublish"
  | .LeaderPublishIdNonePublishKey => "LeaderPublishIdNonePublishKey"
  | .LeaderPublishIdLeaderPublishKey => "LeaderPublishIdLeaderPublishKey"
  | .FriendPublishIdNonePublishKey => "FriendPublishIdNonePublishKey"
  | .FriendPublishIdLeaderPublishKey => "FriendPublishIdLeaderPublishKey"
  | .FriendPublishIdFriendPublishKey => "FriendPublishIdFriendPublishKey"
  | .AnyonePublishIdNonePublishKey => "AnyonePublishIdNonePublishKey"
  | .AnyonePublishIdLeaderPublishKey => "AnyonePublishIdLeaderPublishKey"
  | .AnyonePublishIdFriendPublishKey => "AnyonePublishIdFriendPublishKey"
  | .AnyonePublishIdAnyonePublishKey => "AnyonePublishIdAnyonePublishKey"

/-- The text the encoding of a presence-permission value spells: "DoNotPublish" for the
pair (None, None), otherwise the name of the id permission, "PublishId", the name of the
key permission and "PublishKey". -/
def PresencePermissionsText (IdPermission KeyPermission : EPermissionType) : String :=
  if IdPermission = EPermissionType.None ∧ KeyPermission = EPermissionType.None then
    "DoNotPublish"
  else
    IdPermission.Identifier ++ "PublishId" ++ KeyPermission.Identifier ++ "PublishKey"

/-- The alias `static const EPresencePermissions FriendsInviteOnly`. -/
def FriendsInviteOnly : EPresencePermissions :=
  EPresencePermissions.LeaderPublishIdNonePublishKey

/-- The alias `static const EPresencePermissions FriendsOfFriendsInviteOnly`. -/
def FriendsOfFriendsInviteOnly : EPresencePermissions :=
  EPresencePermissions.FriendPublishIdNonePublishKey

/-- The alias `static const EPresencePermissions PublicInviteOnly`. -/
def PublicInviteOnly : EPresencePermissions :=
  EPresencePermissions.AnyonePublishIdNonePublishKey

/-- The alias `static const EPresencePermissions FriendsOnly`. -/
def FriendsOnly : EPresencePermissions :=
  EPresencePermissions.LeaderPublishIdLeaderPublishKey

/-- The alias `static const EPresencePermissions FriendsOfFriendsOnly`. -/
def FriendsOfFriendsOnly : EPresencePermissions :=
  EPresencePermissions.FriendPublishIdFriendPublishKey

/-- The alias `static const EPresencePermissions Public`. -/
def Public : EPresencePermissions :=
  EPresencePermissions.AnyonePublishIdAnyonePublishKey

/-- The (id permission, key permission) pair a presence-permission value decodes to,
the id from the high nibble and the key from the low nibble. -/
def DecodePresencePermissions (Value : Nat) : Option (EPermissionType × EPermissionType) :=
  match DecodePublishIdPermission Value, DecodePublishKeyPermission Value with
  | some IdPermission, some KeyPermission => some (IdPermission, KeyPermission)
  | _, _ => none

end PartySystemPermissions

/-- The property of a `ToString` overload that labels no member wrongly: a member that
gets a non-empty string gets its own identifier, and two members that get the same
non-empty string are the same member. -/
def LabelsNoMemberWrongly {E : Type} [Fintype E] (ToString Identifier : E → String) : Prop :=
  (∀ Value : E, ToString Value ≠ "" → ToString Value = Identifier Value)
  ∧ (∀ First Second : E, ToString First ≠ "" → ToString First = ToString Second →
      First = Second)

instance {E : Type} [Fintype E] [DecidableEq E] (ToString Identifier : E → String) :
    Decidable (LabelsNoMemberWrongly ToString Identifier) := by
  unfold LabelsNoMemberWrongly; infer_instance

/-! ### The navigation-relevant component (NavRelevantComponent.cpp) -/

/-- The calls `SetNavigationRelevancy` makes, directly or through
`RefreshNavigationModifiers`, as they are recorded in the trace of a component. -/
inductive ENavRelevantCall
  | OnOwnerRegistered
  | OnOwnerUnregistered
  | RefreshNavigationModifiers
  | UpdateNavOctreeOfComponent
  | UpdateNavOctreeOfOwner
  deriving DecidableEq, Repr

/-- The component `UNavRelevantComponent` as `SetNavigationRelevancy` sees it: the flag
`bNavigationRelevant`; what `RefreshNavigationModifiers` asks of its surroundings (is
there a current navigation system, has the component an owner, is the owner an
`INavRelevantActorInterface` that supplies per-component navigation collision), which
is declared outside the sources; and the trace of the calls made so far. -/
structure UNavRelevantComponent where
  /-- the member `bNavigationRelevant` -/
  bNavigationRelevant : Bool
  /-- `UNavigationSystem::GetCurrent(GetWorld())` is not null -/
  bHasNavSys : Bool
  /-- `GetOwner()` is not null -/
  bHasOwner : Bool
  /-- the owner casts to `INavRelevantActorInterface` and
  `DoesSupplyPerComponentNavigationCollision()` is true -/
  bOwnerSuppliesPerComponentNavigationCollision : Bool
  /-- the calls made so far, oldest first -/
  Calls : List ENavRelevantCall
  deriving DecidableEq, Repr

namespace UNavRelevantComponent

/-- The method `void UNavRelevantComponent::OnOwnerRegistered()`: an empty body; the
call is recorded in the trace. -/
def OnOwnerRegistered (This : UNavRelevantComponent) : UNavRelevantComponent :=
  { This with Calls := This.Calls ++ [ENavRelevantCall.OnOwnerRegistered] }

/-- The method `void UNavRelevantComponent::OnOwnerUnregistered()`: an empty body; the
call is recorded in the trace. -/
def OnOwnerUnregistered (This : UNavRelevantComponent) : UNavRelevantComponent :=
  { This with Calls := This.Calls ++ [ENavRelevantCall.OnOwnerUnregistered] }

/-- The method `void UNavRelevantComponent::RefreshNavigationModifiers()`: with a
navigation system and an owner, the octree is updated for the component when the owner
supplies per-component navigation collision and for the owner otherwise. -/
def RefreshNavigationModifiers (This : UNavRelevantComponent) : UNavRelevantComponent :=
  let This := { This with Calls := This.Calls ++ [ENavRelevantCall.RefreshNavigationModifiers] }
  if This.bHasNavSys && This.bHasOwner then
    if This.bOwnerSuppliesPerComponentNavigationCollision then
      { This with Calls := This.Calls ++ [ENavRelevantCall.UpdateNavOctreeOfComponent] }
    else
      { This with Calls := This.Calls ++ [ENavRelevantCall.UpdateNavOctreeOfOwner] }
  else This

/-- The method `void UNavRelevantComponent::SetNavigationRelevancy(bool bRelevant)`. -/
def SetNavigationRelevancy (This : UNavRelevantComponent) (bRelevant : Bool) :
    UNavRelevantComponent :=
  if This.bNavigationRelevant != bRelevant then
    let This := { This with bNavigationRelevant := bRelevant }
    let This := if bRelevant then This.OnOwnerRegistered else This.OnOwnerUnregistered
    This.RefreshNavigationModifiers
  else This

/-- How often a call occurs in the part of the trace added after `Before`. -/
def CallsSince (Before After : UNavRelevantComponent) (Call : ENavRelevantCall) : Nat :=
  (After.Calls.drop Before.Calls.length).count Call

end UNavRelevantComponent

/-! ### Records of the JSON form, in the words of the specification -/

namespace FOnlinePartyData

/-- A well-formed record in the words of the specification: a JSON object whose "Name"
field is a string that is not empty and whose value the variant codec decodes. The
result is the attribute the record spells; a malformed record (not an object, "Name"
missing, not a string or empty, or a value the codec cannot decode) spells none. -/
def WellFormedRecord {FVariantData : Type} (Variant : FVariantDataJson FVariantData) :
    FJsonValue → Option (String × FVariantData)
  | .Object Fields =>
    match TMap.Find Fields "Name" with
    | some (.String Name) =>
      if Name = "" then none
      else
        match Variant.FromJson Fields with
        | some Value => some (Name, Value)
        | none => none
    | _ => none
  | _ => none

/-- Loading a list of attributes one after the other into a map, a later attribute
replacing the value of an earlier one of the same name (`TMap::Add`). -/
def AddAll {FVariantData : Type} (KeyValAttrs : FOnlineKeyValuePairs String FVariantData)
    (Attributes : List (String × FVariantData)) : FOnlineKeyValuePairs String FVariantData :=
  Attributes.foldl (fun Map Attribute => TMap.Add Map Attribute.1 Attribute.2) KeyValAttrs

end FOnlinePartyData

/-! ### Party state -/

/-- The enumeration `enum class EPartyState`. -/
inductive EPartyState
  | None
  | CreatePending
  | JoinPending
  | LeavePending
  | Active
  | Disconnected
  | Reconnecting
  | CleanUp
  deriving DecidableEq, Repr, Fintype

/-- The function `inline const TCHAR* ToString(const EPartyState Value)`: a `switch` with
six `case` labels, and `return TEXT("")` after it for a value no label names. -/
def EPartyState.ToString (Value : EPartyState) : String :=
  match Value with
  | .None => "None"
  | .CreatePending => "Create pending"
  | .JoinPending => "Join pending"
  | .LeavePending => "Leave pending"
  | .Active => "Active"
  | .Disconnected => "Disconnected"
  | _ => ""

/-- Modelled from the spec: `FOnlinePartyTypeId`, declared in OnlineSubsystemTypes.h, is
missing from the sources. The spec calls it an "opaque classifier"; the header builds
one from a value of `FOnlinePartyTypeId::TInternalType`, an unsigned integer, which is
all a party type id holds. -/
structure FOnlinePartyTypeId where
  /-- the value of `TInternalType` the id was built from -/
  Value : Nat
  deriving DecidableEq, Repr

/-- The class `FOnlineParty`: its data members, in declaration order. The types
`FOnlinePartyId` and `FUniqueNetId` are declared in headers missing from the sources
and are parameters; a `TSharedPtr` that may be null is an `Option`; `FChatRoomId` is a
string. -/
structure FOnlineParty (FOnlinePartyId FUniqueNetId FVariantData : Type) where
  /-- unique id of the party -/
  PartyId : FOnlinePartyId
  /-- unique id of the party -/
  PartyTypeId : FOnlinePartyTypeId
  /-- unique id of the leader -/
  LeaderId : Option FUniqueNetId
  /-- The current state of the party -/
  State : EPartyState
  /-- Current state of configuration -/
  Config : FPartyConfiguration FVariantData
  /-- id of chat room associated with the party -/
  RoomId : String

/-- The constructor `explicit FOnlineParty(const TSharedRef<const FOnlinePartyId>& InPartyId,
const FOnlinePartyTypeId InPartyTypeId)`: the member initialiser list, and the default
constructors of `LeaderId` (a null pointer) and `RoomId` (an empty string), which it
does not name. -/
def FOnlineParty.new {FOnlinePartyId FUniqueNetId FVariantData : Type}
    (InPartyId : FOnlinePartyId) (InPartyTypeId : FOnlinePartyTypeId) :
    FOnlineParty FOnlinePartyId FUniqueNetId FVariantData where
  PartyId := InPartyId
  PartyTypeId := InPartyTypeId
  LeaderId := none
  State := EPartyState.None
  Config := FPartyConfiguration.new
  RoomId := ""

/-! ### Party type ids of `IOnlinePartySystem` -/

namespace IOnlinePartySystem

/-- The constant `static const FOnlinePartyTypeId::TInternalType PrimaryPartyTypeIdValue`. -/
def PrimaryPartyTypeIdValue : Nat := 0x11111111

/-- The function `static const FOnlinePartyTypeId GetPrimaryPartyTypeId()`. -/
def GetPrimaryPartyTypeId : FOnlinePartyTypeId :=
  FOnlinePartyTypeId.mk PrimaryPartyTypeIdValue

/-- What a call of `MakePartyTypeId` does: whether the condition of its `ensure` held
(a condition that does not hold is reported and execution goes on) and the id
returned. -/
structure MakePartyTypeIdCall where
  /-- the condition of the `ensure` held -/
  bEnsureHeld : Bool
  /-- the value returned -/
  Result : FOnlinePartyTypeId
  deriving DecidableEq, Repr

/-- The function `static const FOnlinePartyTypeId MakePartyTypeId(const
FOnlinePartyTypeId::TInternalType InTypeId)`: `ensure(InTypeId != PrimaryPartyTypeIdValue)`
and then `return FOnlinePartyTypeId(InTypeId)`. -/
def MakePartyTypeId (InTypeId : Nat) : MakePartyTypeIdCall where
  bEnsureHeld := decide (InTypeId ≠ PrimaryPartyTypeIdValue)
  Result := FOnlinePartyTypeId.mk InTypeId

end IOnlinePartySystem

/-! ### The party coordinator, from the specification

The operations of `IOnlinePartySystem` are pure virtual in the header and no
implementation is among the sources; what follows models the ones the claims need from
the words of the specification. -/

namespace PartyCoordinator

variable {FOnlinePartyId FUniqueNetId FVariantData : Type} [DecidableEq FUniqueNetId]

/-- Modelled from the spec: the creation side of the coordinator, whose implementation
is missing from the sources: the (local user, party type) pairs that hold a party
("a user may be in at most one party per distinct PartyTypeId"), the creations in
flight (`CreatePending`), and the completion callbacks invoked so far, oldest first. -/
structure FCreateState (FUniqueNetId : Type) where
  /-- the local users holding a party, with its type -/
  HeldParties : List (FUniqueNetId × FOnlinePartyTypeId)
  /-- the creations accepted and not yet completed -/
  PendingCreates : List (FUniqueNetId × FOnlinePartyTypeId)
  /-- every invocation of a completion callback so far -/
  CreateCallbacks : List (FUniqueNetId × FOnlinePartyTypeId × ECreatePartyCompletionResult)

/-- What a call of `CreateParty` does: the `bool` returned ("true if task was started"),
the reason of a synchronous rejection, and the state after the call. -/
structure FCreatePartyCall (FUniqueNetId : Type) where
  /-- the value returned -/
  bStarted : Bool
  /-- why the call was rejected, when it was -/
  Rejection : Option ECreatePartyCompletionResult
  /-- the coordinator after the call -/
  State : FCreateState FUniqueNetId

/-- Modelled from the spec: `IOnlinePartySystem::CreateParty`, pure virtual in the
header. "`CreateParty` fails fast with `AlreadyInPartyOfSpecifiedType` if the local user
already holds a Party with that PartyTypeId; `AlreadyCreatingParty` if a CreatePending
op is already in flight for that type. If preconditions pass: returns `true` (operation
accepted and now in flight) and transitions state to the relevant `*Pending`; returns
`false` synchronously if rejected, with no further callback." -/
def CreateParty (State : FCreateState FUniqueNetId) (LocalUserId : FUniqueNetId)
    (PartyTypeId : FOnlinePartyTypeId) : FCreatePartyCall FUniqueNetId :=
  if (LocalUserId, PartyTypeId) ∈ State.HeldParties then
    { bStarted := false
      Rejection := some ECreatePartyCompletionResult.AlreadyInPartyOfSpecifiedType
      State := State }
  else if (LocalUserId, PartyTypeId) ∈ State.PendingCreates then
    { bStarted := false
      Rejection := some ECreatePartyCompletionResult.AlreadyCreatingParty
      State := State }
  else
    { bStarted := true
      Rejection := none
      State := { State with
        PendingCreates := State.PendingCreates ++ [(LocalUserId, PartyTypeId)] } }

/-- Modelled from the spec: the network completion of a creation. "On network
completion: invokes the registered callback exactly once with a result code from the
operation's closed result enumeration"; "completion callbacks fire at most once per
accepted operation". A completion for which no creation is in flight does nothing; on
`Succeeded` the user holds the party. -/
def OnCreatePartyCompleted (State : FCreateState FUniqueNetId) (LocalUserId : FUniqueNetId)
    (PartyTypeId : FOnlinePartyTypeId) (Result : ECreatePartyCompletionResult) :
    FCreateState FUniqueNetId :=
  if (LocalUserId, PartyTypeId) ∈ State.PendingCreates then
    { HeldParties :=
        if Result = ECreatePartyCompletionResult.Succeeded then
          State.HeldParties ++ [(LocalUserId, PartyTypeId)]
        else State.HeldParties
      PendingCreates := State.PendingCreates.filter
        (fun Pending => !decide (Pending = (LocalUserId, PartyTypeId)))
      CreateCallbacks := State.CreateCallbacks ++ [(LocalUserId, PartyTypeId, Result)] }
  else State

/-- Modelled from the spec: a party as the coordinator caches it, whose implementation is
missing from the sources: the `FOnlineParty` record (leader, state, configuration) and
its current members ("PartyMember: owned by the Party it belongs to"). -/
structure FCachedParty (FOnlinePartyId FUniqueNetId FVariantData : Type) where
  /-- the party record -/
  Party : FOnlineParty FOnlinePartyId FUniqueNetId FVariantData
  /-- the current members, in joining order -/
  Members : List FUniqueNetId

/-- Modelled from the spec: `IOnlinePartySystem::IsMemberLeader`, pure virtual in the
header: "returns true if the user specified by MemberId is the leader of the party",
read from the cached record. -/
def IsMemberLeader (_LocalUserId : FUniqueNetId)
    (Party : FCachedParty FOnlinePartyId FUniqueNetId FVariantData) (MemberId : FUniqueNetId) :
    Bool :=
  decide (Party.Party.LeaderId = some MemberId)

/-- Modelled from the spec: `IOnlinePartySystem::GetPartyMemberCount`, pure virtual in
the header: the number of members of the cached party. -/
def GetPartyMemberCount (_LocalUserId : FUniqueNetId)
    (Party : FCachedParty FOnlinePartyId FUniqueNetId FVariantData) : Nat :=
  Party.Members.length

/-- Modelled from the spec: the outcome of `IOnlinePartySystem::PromoteMember`, pure
virtual in the header: "PromoteMember (leader-only, reassigns LeaderId)". The failures
are those of `EPromoteMemberCompletionResult` that the party record decides, tested in
the order the enumeration declares them; on `Succeeded` the target is the leader. -/
def PromoteMember (LocalUserId : FUniqueNetId)
    (Party : FCachedParty FOnlinePartyId FUniqueNetId FVariantData)
    (TargetMemberId : FUniqueNetId) :
    EPromoteMemberCompletionResult × FCachedParty FOnlinePartyId FUniqueNetId FVariantData :=
  if LocalUserId ∉ Party.Members then
    (EPromoteMemberCompletionResult.LocalMemberNotMember, Party)
  else if Party.Party.LeaderId ≠ some LocalUserId then
    (EPromoteMemberCompletionResult.LocalMemberNotLeader, Party)
  else if TargetMemberId = LocalUserId then
    (EPromoteMemberCompletionResult.TargetIsSelf, Party)
  else if TargetMemberId ∉ Party.Members then
    (EPromoteMemberCompletionResult.TargetNotMember, Party)
  else
    (EPromoteMemberCompletionResult.Succeeded,
      { Party with Party := { Party.Party with LeaderId := some TargetMemberId } })

/-- Modelled from the spec: the outcome of `IOnlinePartySystem::KickMember`, pure virtual
in the header: "KickMember (leader-only)", "Only admin can kick a party member". The
failures are those of `EKickMemberCompletionResult` that the party record decides,
tested in the order the enumeration declares them; on `Succeeded` the target is no
longer a member. -/
def KickMember (LocalUserId : FUniqueNetId)
    (Party : FCachedParty FOnlinePartyId FUniqueNetId FVariantData)
    (TargetMemberId : FUniqueNetId) :
    EKickMemberCompletionResult × FCachedParty FOnlinePartyId FUniqueNetId FVariantData :=
  if LocalUserId ∉ Party.Members then
    (EKickMemberCompletionResult.LocalMemberNotMember, Party)
  else if Party.Party.LeaderId ≠ some LocalUserId then
    (EKickMemberCompletionResult.LocalMemberNotLeader, Party)
  else if TargetMemberId ∉ Party.Members then
    (EKickMemberCompletionResult.RemoteMemberNotMember, Party)
  else
    (EKickMemberCompletionResult.Succeeded,
      { Party with
        Members := Party.Members.filter (fun Member => !decide (Member = TargetMemberId)) })

/-- Modelled from the spec: the outcome of a join attempt (`IOnlinePartySystem::JoinParty`,
pure virtual in the header) on the party the join info names, once the join info is
valid and the request approved: a member is `AlreadyInParty`; "a party with
`MaxMembers = N` rejects the (N+1)-th join attempt with `NoSpace`; `MaxMembers = 0`
admits unbounded joins"; otherwise the user becomes a member. -/
def JoinParty (LocalUserId : FUniqueNetId)
    (Party : FCachedParty FOnlinePartyId FUniqueNetId FVariantData) :
    EJoinPartyCompletionResult × FCachedParty FOnlinePartyId FUniqueNetId FVariantData :=
  if LocalUserId ∈ Party.Members then
    (EJoinPartyCompletionResult.AlreadyInParty, Party)
  else if 0 < Party.Party.Config.MaxMembers
      ∧ Party.Party.Config.MaxMembers ≤ (Party.Members.length : Int) then
    (EJoinPartyCompletionResult.NoSpace, Party)
  else
    (EJoinPartyCompletionResult.Succeeded,
      { Party with Members := Party.Members ++ [LocalUserId] })

/-- A run of join attempts, one user after the other: the results in order and the
party at the end. -/
def JoinPartyAll :
    List FUniqueNetId → FCachedParty FOnlinePartyId FUniqueNetId FVariantData →
    List EJoinPartyCompletionResult × FCachedParty FOnlinePartyId FUniqueNetId FVariantData
  | [], Party => ([], Party)
  | LocalUserId :: rest, Party =>
    ((JoinParty LocalUserId Party).1 :: (JoinPartyAll rest (JoinParty LocalUserId Party).2).1,
      (JoinPartyAll rest (JoinParty LocalUserId Party).2).2)

/-- A party to run the operations on: the active party "P1" of type 7, led by "alice",
with the default configuration but for the given `MaxMembers`, and the given members. -/
def SampleParty (MaxMembers : Int) (Members : List String) : FCachedParty String String Unit where
  Party :=
    { PartyId := "P1"
      PartyTypeId := FOnlinePartyTypeId.mk 7
      LeaderId := some "alice"
      State := EPartyState.Active
      Config := { (FPartyConfiguration.new : FPartyConfiguration Unit) with
        MaxMembers := MaxMembers }
      RoomId := "" }
  Members := Members

end PartyCoordinator

/-! ## Theorems -/

namespace TMap

variable {KeyType ValueType : Type} [DecidableEq KeyType]

theorem Find_isSome_iff (m : TMap KeyType ValueType) (Key : KeyType) :
    (Find m Key).isSome = true ↔ Key ∈ Keys m := by
  induction m with
  | nil => simp [Find, Keys]
  | cons e rest ih =>
    obtain ⟨k, v⟩ := e
    by_cases h : k = Key
    · simp [Find, Keys, h]
    · have h2 : ¬ Key = k := fun h3 => h h3.symm
      simp only [Find, h, if_false, ih]
      simp [Keys, h2]

theorem Find_eq_none_iff (m : TMap KeyType ValueType) (Key : KeyType) :
    Find m Key = none ↔ Key ∉ Keys m := by
  rw [← Find_isSome_iff]
  cases Find m Key <;> simp

theorem FindOrAdd_cons_of_ne [Inhabited ValueType] (k Key : KeyType) (v : ValueType)
    (rest : TMap KeyType ValueType) (h : ¬ k = Key) :
    FindOrAdd ((k, v) :: rest) Key = (k, v) :: FindOrAdd rest Key := by
  have hc : Contains ((k, v) :: rest) Key = Contains rest Key := by
    simp [Contains, Find, h]
  unfold FindOrAdd
  rw [hc]
  cases Contains rest Key <;> simp

theorem AssignAt_FindOrAdd [Inhabited ValueType] (m : TMap KeyType ValueType)
    (Key : KeyType) (Value : ValueType) :
    AssignAt (FindOrAdd m Key) Key Value = Add m Key Value := by
  induction m with
  | nil => simp [FindOrAdd, Contains, Find, AssignAt, Add]
  | cons e rest ih =>
    obtain ⟨k, v⟩ := e
    by_cases h : k = Key
    · simp [FindOrAdd, Contains, Find, AssignAt, Add, h]
    · rw [FindOrAdd_cons_of_ne k Key v rest h]
      simp only [AssignAt, Add, h, if_false, ih]

theorem Find_Add_self (m : TMap KeyType ValueType) (Key : KeyType)
    (Value : ValueType) : Find (Add m Key Value) Key = some Value := by
  induction m with
  | nil => simp [Add, Find]
  | cons e rest ih =>
    obtain ⟨k, v⟩ := e
    by_cases h : k = Key
    · simp [Add, Find, h]
    · simp [Add, Find, h, ih]

theorem Find_Add_of_ne (m : TMap KeyType ValueType) (Key Other : KeyType)
    (Value : ValueType) (hne : Other ≠ Key) :
    Find (Add m Key Value) Other = Find m Other := by
  induction m with
  | nil => simp [Add, Find, Ne.symm hne]
  | cons e rest ih =>
    obtain ⟨k, v⟩ := e
    by_cases h : k = Key
    · subst h
      simp [Add, Find, Ne.symm hne]
    · by_cases h2 : k = Other
      · subst h2
        simp [Add, Find, hne]
      · simp [Add, Find, h, h2, ih]

theorem mem_Keys_Add (m : TMap KeyType ValueType) (Key Other : KeyType)
    (Value : ValueType) : Other ∈ Keys (Add m Key Value) ↔ Other ∈ Keys m ∨ Other = Key := by
  induction m with
  | nil => simp [Add, Keys]
  | cons e rest ih =>
    obtain ⟨k, v⟩ := e
    have ih2 : Other ∈ List.map Prod.fst (Add rest Key Value) ↔
        Other ∈ List.map Prod.fst rest ∨ Other = Key := ih
    by_cases h : k = Key
    · subst h
      simp only [Add, if_true, Keys, List.map_cons, List.mem_cons]
      tauto
    · simp only [Add, h, if_false, Keys, List.map_cons, List.mem_cons, ih2]
      tauto

theorem Add_Add (m : TMap KeyType ValueType) (Key : KeyType)
    (Value1 Value2 : ValueType) : Add (Add m Key Value1) Key Value2 = Add m Key Value2 := by
  induction m with
  | nil => simp [Add]
  | cons e rest ih =>
    obtain ⟨k, v⟩ := e
    by_cases h : k = Key
    · simp [Add, h]
    · simp [Add, h, ih]

theorem UniqueKeys_Add (m : TMap KeyType ValueType) (Key : KeyType)
    (Value : ValueType) (hm : UniqueKeys m) : UniqueKeys (Add m Key Value) := by
  induction m with
  | nil => simp [Add, UniqueKeys, Keys]
  | cons e rest ih =>
    obtain ⟨k, v⟩ := e
    have hm2 : k ∉ Keys rest ∧ UniqueKeys rest := by
      simpa [UniqueKeys, Keys] using hm
    by_cases h : k = Key
    · subst h
      simpa [Add, UniqueKeys, Keys] using hm
    · have hk : k ∉ Keys (Add rest Key Value) := by
        rw [mem_Keys_Add]
        rintro (h1 | h1)
        · exact hm2.1 h1
        · exact h h1
      have := ih hm2.2
      simp only [Add, h, if_false, UniqueKeys, Keys, List.map_cons, List.nodup_cons]
      exact ⟨hk, this⟩

end TMap

namespace FOnlinePartyData

variable {FVariantData : Type}

theorem SetAttribute_eq_Add [Inhabited FVariantData] (This : FOnlinePartyData FVariantData)
    (AttrName : String) (AttrValue : FVariantData) :
    (SetAttribute This AttrName AttrValue).KeyValAttrs
      = This.KeyValAttrs.Add AttrName AttrValue := by
  simp [SetAttribute, TMap.AssignAt_FindOrAdd]

end FOnlinePartyData

/-! ## The JSON form: helper lemmas -/

namespace TMap

variable {KeyType ValueType : Type} [DecidableEq KeyType]

theorem Add_of_not_mem (m : TMap KeyType ValueType) (Key : KeyType) (Value : ValueType)
    (h : Key ∉ Keys m) : Add m Key Value = m ++ [(Key, Value)] := by
  induction m with
  | nil => simp [Add]
  | cons e rest ih =>
    obtain ⟨k, v⟩ := e
    have h2 : ¬ Key = k ∧ Key ∉ Keys rest := by
      simpa [Keys] using h
    have h3 : ¬ k = Key := fun h4 => h2.1 h4.symm
    simp only [Add, h3, if_false, ih h2.2, List.cons_append]

end TMap

namespace FJsonObject

theorem TryGetStringField_SetStringField (This : FJsonObject) (FieldName Value : String) :
    (This.SetStringField FieldName Value).TryGetStringField FieldName = some Value := by
  simp [TryGetStringField, SetStringField, TMap.Find_Add_self]

theorem HasTypedFieldArray_SetArrayField (This : FJsonObject) (FieldName : String)
    (Values : List FJsonValue) :
    (This.SetArrayField FieldName Values).HasTypedFieldArray FieldName = true := by
  simp [HasTypedFieldArray, SetArrayField, TMap.Find_Add_self]

theorem GetArrayField_SetArrayField (This : FJsonObject) (FieldName : String)
    (Values : List FJsonValue) :
    (This.SetArrayField FieldName Values).GetArrayField FieldName = Values := by
  simp [GetArrayField, SetArrayField, TMap.Find_Add_self]

end FJsonObject

namespace FOnlinePartyData

variable {FVariantData : Type}

/-- The record `ToJson` writes for one attribute. -/
theorem ToJsonProperties_eq_map (Variant : FVariantDataJson FVariantData)
    (KeyValAttrs : FOnlineKeyValuePairs String FVariantData) :
    ToJsonProperties Variant KeyValAttrs
      = KeyValAttrs.map fun Iterator =>
          FJsonValue.Object ((Variant.ToJson Iterator.2).SetStringField "Name" Iterator.1) := by
  have key : ∀ (l : List (String × FVariantData)) (init : List FJsonValue),
      l.foldl (fun JsonProperties Iterator =>
          JsonProperties ++
            [FJsonValue.Object ((Variant.ToJson Iterator.2).SetStringField "Name" Iterator.1)])
        init
        = init ++ l.map fun Iterator =>
            FJsonValue.Object ((Variant.ToJson Iterator.2).SetStringField "Name" Iterator.1) := by
    intro l
    induction l with
    | nil => intro init; simp
    | cons e rest ih => intro init; simp [ih]
  simpa [ToJsonProperties] using key KeyValAttrs []

theorem FromJsonProperty_record (Variant : FVariantDataJson FVariantData)
    (KeyValAttrs : FOnlineKeyValuePairs String FVariantData) (Name : String)
    (Value : FVariantData)
    (hVariant : Variant.FromJson ((Variant.ToJson Value).SetStringField "Name" Name)
      = some Value) :
    FromJsonProperty Variant KeyValAttrs
        (FJsonValue.Object ((Variant.ToJson Value).SetStringField "Name" Name))
      = if Name.isEmpty then KeyValAttrs else TMap.Add KeyValAttrs Name Value := by
  simp only [FromJsonProperty, FJsonValue.AsObject,
    FJsonObject.TryGetStringField_SetStringField, hVariant]
  cases Name.isEmpty <;> simp

theorem foldl_FromJsonProperty_records (Variant : FVariantDataJson FVariantData)
    (Records : List (String × FVariantData)) :
    ∀ KeyValAttrs : FOnlineKeyValuePairs String FVariantData,
    (∀ Name Value, (Name, Value) ∈ Records →
      Variant.FromJson ((Variant.ToJson Value).SetStringField "Name" Name) = some Value) →
    (TMap.Keys Records).Nodup →
    (∀ Name, Name ∈ TMap.Keys Records → Name ∉ TMap.Keys KeyValAttrs) →
    (Records.map fun Iterator =>
        FJsonValue.Object ((Variant.ToJson Iterator.2).SetStringField "Name" Iterator.1)).foldl
      (FromJsonProperty Variant) KeyValAttrs
      = KeyValAttrs ++ Records.filter fun Iterator => !Iterator.1.isEmpty := by
  induction Records with
  | nil => intro KeyValAttrs _ _ _; simp
  | cons e rest ih =>
    intro KeyValAttrs hVariant hNodup hFresh
    obtain ⟨k, v⟩ := e
    have hk : k ∉ TMap.Keys rest ∧ (TMap.Keys rest).Nodup := by
      simpa [TMap.Keys] using hNodup
    have hkFresh : k ∉ TMap.Keys KeyValAttrs := hFresh k (by simp [TMap.Keys])
    have hVariantRest : ∀ Name Value, (Name, Value) ∈ rest →
        Variant.FromJson ((Variant.ToJson Value).SetStringField "Name" Name) = some Value :=
      fun Name Value hmem => hVariant Name Value (List.mem_cons_of_mem _ hmem)
    simp only [List.map_cons, List.foldl_cons]
    rw [FromJsonProperty_record Variant KeyValAttrs k v (hVariant k v (List.mem_cons_self _ _))]
    by_cases hEmpty : k.isEmpty = true
    · have hFreshRest : ∀ Name, Name ∈ TMap.Keys rest → Name ∉ TMap.Keys KeyValAttrs :=
        fun Name hmem => hFresh Name (by
          simp only [TMap.Keys, List.map_cons, List.mem_cons]
          exact Or.inr hmem)
      rw [if_pos hEmpty, ih KeyValAttrs hVariantRest hk.2 hFreshRest]
      simp [List.filter_cons, hEmpty]
    · have hFreshRest : ∀ Name, Name ∈ TMap.Keys rest →
          Name ∉ TMap.Keys (TMap.Add KeyValAttrs k v) := by
        intro Name hmem
        rw [TMap.mem_Keys_Add]
        rintro (h1 | h1)
        · exact hFresh Name (by
            simp only [TMap.Keys, List.map_cons, List.mem_cons]
            exact Or.inr hmem) h1
        · exact hk.1 (h1 ▸ hmem)
      rw [if_neg hEmpty, ih (TMap.Add KeyValAttrs k v) hVariantRest hk.2 hFreshRest,
        TMap.Add_of_not_mem KeyValAttrs k v hkFresh]
      simp [List.filter_cons, hEmpty]

theorem FromJsonProperty_no_empty_key (Variant : FVariantDataJson FVariantData)
    (KeyValAttrs : FOnlineKeyValuePairs String FVariantData) (JsonPropertyValue : FJsonValue)
    (h : "" ∉ TMap.Keys KeyValAttrs) :
    "" ∉ TMap.Keys (FromJsonProperty Variant KeyValAttrs JsonPropertyValue) := by
  unfold FromJsonProperty
  split
  · split
    · rename_i PropertyName _
      by_cases hEmpty : PropertyName.isEmpty = true
      · simpa [hEmpty] using h
      · simp only [hEmpty, Bool.not_false, if_true]
        split
        · rw [TMap.mem_Keys_Add]
          rintro (h1 | h1)
          · exact h h1
          · exact hEmpty ((String.isEmpty_iff _).mpr h1.symm)
        · exact h
    · exact h
  · exact h

theorem FromJson_no_empty_key (Json : FJsonSerializer) (Variant : FVariantDataJson FVariantData)
    (This : FOnlinePartyData FVariantData) (JsonString : String) :
    ¬ HasKey (FromJson Json Variant This JsonString) "" := by
  have key : ∀ (l : List FJsonValue) (acc : FOnlineKeyValuePairs String FVariantData),
      "" ∉ TMap.Keys acc → "" ∉ TMap.Keys (l.foldl (FromJsonProperty Variant) acc) := by
    intro l
    induction l with
    | nil => intro acc h; simpa using h
    | cons e rest ih =>
      intro acc h
      simpa using ih _ (FromJsonProperty_no_empty_key Variant acc e h)
  unfold FromJson HasKey
  split
  · split
    · exact key _ _ (by simp [TMap.Empty, TMap.Keys])
    · simp [TMap.Empty, TMap.Keys]
  · simp [TMap.Empty, TMap.Keys]

end FOnlinePartyData

/-! ## The party data blob: get and set -/

namespace FOnlinePartyData

variable {FVariantData : Type}

/-- C1 (the code departs from it): `GetAttribute` is documented to return true if the
attribute was found. On the blob holding the one attribute "MaxPlayers" = 4, looking up
"MaxPlayers" finds the attribute and copies 4 into the out parameter, and the call
still returns false. -/
theorem GetAttribute_found_returns_false :
    HasKey (⟨[("MaxPlayers", (4 : Int))]⟩ : FOnlinePartyData Int) "MaxPlayers"
      ∧ (GetAttribute (⟨[("MaxPlayers", (4 : Int))]⟩ : FOnlinePartyData Int) "MaxPlayers" 0).OutAttrValue = 4
      ∧ (GetAttribute (⟨[("MaxPlayers", (4 : Int))]⟩ : FOnlinePartyData Int) "MaxPlayers" 0).bResult = false := by
  refine ⟨by decide, rfl, rfl⟩

/-- C7: after `SetAttribute(k, v)`, `GetAttribute(k, out)` writes exactly `v` into the
out parameter, whatever it held before and whether or not `k` was already a key. -/
theorem GetAttribute_SetAttribute_same [Inhabited FVariantData]
    (d : FOnlinePartyData FVariantData) (k : String) (v out : FVariantData) :
    (GetAttribute (SetAttribute d k v) k out).OutAttrValue = v := by
  simp [GetAttribute, SetAttribute_eq_Add, TMap.Find_Add_self]

/-- C8: `SetAttribute(k, v)` preserves every other key: a key other than `k` is present
afterwards iff it was present before and is mapped to the same value (or, if absent, to
nothing) as before, and the keys afterwards are the old keys together with `k`. -/
theorem SetAttribute_preserves_other_keys [Inhabited FVariantData]
    (d : FOnlinePartyData FVariantData) (k : String) (v : FVariantData) :
    (∀ other : String, other ≠ k →
        (HasKey (SetAttribute d k v) other ↔ HasKey d other)
        ∧ (SetAttribute d k v).KeyValAttrs.Find other = d.KeyValAttrs.Find other
        ∧ ∀ out : FVariantData,
            (GetAttribute (SetAttribute d k v) other out).OutAttrValue
              = (GetAttribute d other out).OutAttrValue)
    ∧ (∀ key : String, HasKey (SetAttribute d k v) key ↔ (HasKey d key ∨ key = k)) := by
  refine ⟨fun other hne => ⟨?_, ?_, ?_⟩, fun key => ?_⟩
  · simp only [HasKey, SetAttribute_eq_Add, TMap.mem_Keys_Add]
    simp [hne]
  · rw [SetAttribute_eq_Add, TMap.Find_Add_of_ne _ _ _ _ hne]
  · intro out
    simp only [GetAttribute, SetAttribute_eq_Add,
      TMap.Find_Add_of_ne _ _ _ _ hne]
  · simp only [HasKey, SetAttribute_eq_Add, TMap.mem_Keys_Add]

/-- C9: `SetAttribute` overwrites rather than accumulates. Setting `k` to `v1` and then
to `v2` leaves the same blob as setting `k` to `v2` alone, and in a blob with unique
attribute names the names stay unique, `k` occurring exactly once, mapped to `v2`. -/
theorem SetAttribute_overwrites [Inhabited FVariantData]
    (d : FOnlinePartyData FVariantData) (k : String) (v1 v2 : FVariantData)
    (hd : d.KeyValAttrs.UniqueKeys) :
    SetAttribute (SetAttribute d k v1) k v2 = SetAttribute d k v2
    ∧ (SetAttribute (SetAttribute d k v1) k v2).KeyValAttrs.UniqueKeys
    ∧ (SetAttribute (SetAttribute d k v1) k v2).KeyValAttrs.Keys.count k = 1
    ∧ (SetAttribute (SetAttribute d k v1) k v2).KeyValAttrs.Find k = some v2 := by
  have heq : SetAttribute (SetAttribute d k v1) k v2 = SetAttribute d k v2 := by
    have h := SetAttribute_eq_Add (SetAttribute d k v1) k v2
    rw [SetAttribute_eq_Add d k v1, TMap.Add_Add,
      ← SetAttribute_eq_Add d k v2] at h
    cases hx : SetAttribute (SetAttribute d k v1) k v2
    cases hy : SetAttribute d k v2
    rw [hx, hy] at h
    simp only at h
    rw [h]
  have hu : (SetAttribute d k v2).KeyValAttrs.UniqueKeys := by
    rw [SetAttribute_eq_Add]
    exact TMap.UniqueKeys_Add _ _ _ hd
  refine ⟨heq, ?_, ?_, ?_⟩
  · rw [heq]; exact hu
  · rw [heq]
    apply List.count_eq_one_of_mem hu
    rw [SetAttribute_eq_Add, TMap.mem_Keys_Add]
    exact Or.inr rfl
  · rw [heq, SetAttribute_eq_Add, TMap.Find_Add_self]

/-- Witness for C9: on the blob holding "Map" = 1 and "Mode" = 2, which has unique
names, setting "Map" to 7 and then to 9 is setting it to 9. -/
theorem SetAttribute_overwrites_witness :
    (⟨[("Map", (1 : Int)), ("Mode", 2)]⟩ : FOnlinePartyData Int).KeyValAttrs.UniqueKeys
    ∧ (SetAttribute (SetAttribute (⟨[("Map", (1 : Int)), ("Mode", 2)]⟩ : FOnlinePartyData Int)
          "Map" 7) "Map" 9
        = SetAttribute (⟨[("Map", (1 : Int)), ("Mode", 2)]⟩ : FOnlinePartyData Int) "Map" 9
      ∧ (SetAttribute (SetAttribute (⟨[("Map", (1 : Int)), ("Mode", 2)]⟩ : FOnlinePartyData Int)
          "Map" 7) "Map" 9).KeyValAttrs.UniqueKeys
      ∧ (SetAttribute (SetAttribute (⟨[("Map", (1 : Int)), ("Mode", 2)]⟩ : FOnlinePartyData Int)
          "Map" 7) "Map" 9).KeyValAttrs.Keys.count "Map" = 1
      ∧ (SetAttribute (SetAttribute (⟨[("Map", (1 : Int)), ("Mode", 2)]⟩ : FOnlinePartyData Int)
          "Map" 7) "Map" 9).KeyValAttrs.Find "Map" = some 9) :=
  ⟨by decide, SetAttribute_overwrites _ "Map" 7 9 (by decide)⟩

/-- C10: for a key that is not in the blob, `GetAttribute` is a no-op failure: it
returns false, leaves the out parameter exactly as it was, and leaves the blob
unchanged. -/
theorem GetAttribute_absent_key (d : FOnlinePartyData FVariantData) (k : String)
    (out : FVariantData) (hk : ¬ HasKey d k) :
    (GetAttribute d k out).bResult = false
    ∧ (GetAttribute d k out).OutAttrValue = out
    ∧ (GetAttribute d k out).This = d := by
  have hn : d.KeyValAttrs.Find k = none :=
    (TMap.Find_eq_none_iff _ _).mpr hk
  simp [GetAttribute, hn]

/-- Witness for C10: "Mode" is not a key of the blob holding only "Map" = 1; looking
it up with 5 in the out parameter returns false and leaves 5 there. -/
theorem GetAttribute_absent_key_witness :
    ¬ HasKey (⟨[("Map", (1 : Int))]⟩ : FOnlinePartyData Int) "Mode"
    ∧ ((GetAttribute (⟨[("Map", (1 : Int))]⟩ : FOnlinePartyData Int) "Mode" 5).bResult = false
      ∧ (GetAttribute (⟨[("Map", (1 : Int))]⟩ : FOnlinePartyData Int) "Mode" 5).OutAttrValue = 5
      ∧ (GetAttribute (⟨[("Map", (1 : Int))]⟩ : FOnlinePartyData Int) "Mode" 5).This
          = ⟨[("Map", (1 : Int))]⟩) :=
  ⟨by decide, GetAttribute_absent_key _ "Mode" 5 (by decide)⟩

end FOnlinePartyData

/-! ## Presence permissions -/

namespace PartySystemPermissions

/-- C3: `FPublishPermissionBuilder` accepts a pair (its validator base class is the
defined `<true>` specialisation) iff the key permission is at most the id permission in
the ordering `None < Leader < Friend < Anyone`, and the comparison of the enumerator
values 0, 1, 2, 4 made by the code is that ordering. -/
theorem FPublishPermissionBuilder_accepts_iff (IdPermission KeyPermission : EPermissionType) :
    (FPublishPermissionBuilder.IsAccepted IdPermission KeyPermission = true
        ↔ KeyPermission.specRank ≤ IdPermission.specRank)
    ∧ (KeyPermission.toUInt8 ≤ IdPermission.toUInt8
        ↔ KeyPermission.specRank ≤ IdPermission.specRank)
    ∧ [EPermissionType.None.toUInt8, EPermissionType.Leader.toUInt8,
        EPermissionType.Friend.toUInt8, EPermissionType.Anyone.toUInt8] = [0, 1, 2, 4] := by
  cases IdPermission <;> cases KeyPermission <;> decide

theorem KeyVisibilityLeIdVisibility_toUInt8 (Permissions : EPresencePermissions) :
    KeyVisibilityLeIdVisibility Permissions.toUInt8 := by
  refine ⟨Permissions.BuilderArguments.1, Permissions.BuilderArguments.2, ?_⟩
  cases Permissions <;> decide

/-- C4: every value of `EPresencePermissions`, and so the `PresencePermissions` field of
every `FPartyConfiguration`, the default-constructed one included, decodes (id
permission from the high nibble, key permission from the low nibble) to a pair whose
key visibility is at most its id visibility. -/
theorem PresencePermissions_key_le_id :
    (∀ Permissions : EPresencePermissions, KeyVisibilityLeIdVisibility Permissions.toUInt8)
    ∧ (∀ (FVariantData : Type) (Config : FPartyConfiguration FVariantData),
        KeyVisibilityLeIdVisibility Config.PresencePermissions.toUInt8)
    ∧ (∀ FVariantData : Type, KeyVisibilityLeIdVisibility
        (FPartyConfiguration.new : FPartyConfiguration FVariantData).PresencePermissions.toUInt8)
    ∧ (¬ ∃ Permissions : EPresencePermissions,
        ∃ IdPermission KeyPermission : EPermissionType,
          DecodePublishIdPermission Permissions.toUInt8 = some IdPermission
          ∧ DecodePublishKeyPermission Permissions.toUInt8 = some KeyPermission
          ∧ IdPermission.specRank < KeyPermission.specRank) := by
  refine ⟨KeyVisibilityLeIdVisibility_toUInt8, fun _ Config => ?_, fun _ => ?_, ?_⟩
  · exact KeyVisibilityLeIdVisibility_toUInt8 _
  · exact KeyVisibilityLeIdVisibility_toUInt8 _
  · rintro ⟨Permissions, IdPermission, KeyPermission, hId, hKey, hlt⟩
    cases Permissions <;> cases IdPermission <;> cases KeyPermission <;>
      revert hId hKey hlt <;> decide

/-- C5: of the 16 (id permission, key permission) pairs exactly 10 are accepted by the
validator and exactly 6 are rejected; every enumerator of `EPresencePermissions` is
built from an accepted pair, every accepted pair has exactly one enumerator, and the
value of that enumerator is the builder's `Value` for the pair. -/
theorem accepted_pairs_and_enumerators :
    Fintype.card (EPermissionType × EPermissionType) = 16
    ∧ (Finset.univ.filter (fun Pair : EPermissionType × EPermissionType =>
          FPublishPermissionBuilder.IsAccepted Pair.1 Pair.2 = true)).card = 10
    ∧ (Finset.univ.filter (fun Pair : EPermissionType × EPermissionType =>
          FPublishPermissionBuilder.IsAccepted Pair.1 Pair.2 = false)).card = 6
    ∧ Fintype.card EPresencePermissions = 10
    ∧ (∀ Permissions : EPresencePermissions,
          FPublishPermissionBuilder.IsAccepted Permissions.BuilderArguments.1
            Permissions.BuilderArguments.2 = true)
    ∧ (∀ IdPermission KeyPermission : EPermissionType,
          FPublishPermissionBuilder.IsAccepted IdPermission KeyPermission = true →
          ∃! Permissions : EPresencePermissions,
            Permissions.BuilderArguments = (IdPermission, KeyPermission)
            ∧ Permissions.toUInt8
                = FPublishPermissionBuilder.Value IdPermission KeyPermission)
    ∧ (∀ IdPermission KeyPermission : EPermissionType,
          FPublishPermissionBuilder.IsAccepted IdPermission KeyPermission = false →
          ¬ ∃ Permissions : EPresencePermissions,
            Permissions.BuilderArguments = (IdPermission, KeyPermission)) := by
  refine ⟨by decide, by decide, by decide, by decide, by decide, ?_, ?_⟩
  · intro IdPermission KeyPermission h
    cases IdPermission <;> cases KeyPermission <;>
      first
      | exact absurd h (by decide)
      | exact ⟨.DoNotPublish, ⟨rfl, rfl⟩, fun y hy => by cases y <;> first | rfl | exact absurd hy.1 (by decide)⟩
      | exact ⟨.LeaderPublishIdNonePublishKey, ⟨rfl, rfl⟩, fun y hy => by cases y <;> first | rfl | exact absurd hy.1 (by decide)⟩
      | exact ⟨.LeaderPublishIdLeaderPublishKey, ⟨rfl, rfl⟩, fun y hy => by cases y <;> first | rfl | exact absurd hy.1 (by decide)⟩
      | exact ⟨.FriendPublishIdNonePublishKey, ⟨rfl, rfl⟩, fun y hy => by cases y <;> first | rfl | exact absurd hy.1 (by decide)⟩
      | exact ⟨.FriendPublishIdLeaderPublishKey, ⟨rfl, rfl⟩, fun y hy => by cases y <;> first | rfl | exact absurd hy.1 (by decide)⟩
      | exact ⟨.FriendPublishIdFriendPublishKey, ⟨rfl, rfl⟩, fun y hy => by cases y <;> first | rfl | exact absurd hy.1 (by decide)⟩
      | exact ⟨.AnyonePublishIdNonePublishKey, ⟨rfl, rfl⟩, fun y hy => by cases y <;> first | rfl | exact absurd hy.1 (by decide)⟩
      | exact ⟨.AnyonePublishIdLeaderPublishKey, ⟨rfl, rfl⟩, fun y hy => by cases y <;> first | rfl | exact absurd hy.1 (by decide)⟩
      | exact ⟨.AnyonePublishIdFriendPublishKey, ⟨rfl, rfl⟩, fun y hy => by cases y <;> first | rfl | exact absurd hy.1 (by decide)⟩
      | exact ⟨.AnyonePublishIdAnyonePublishKey, ⟨rfl, rfl⟩, fun y hy => by cases y <;> first | rfl | exact absurd hy.1 (by decide)⟩
  · intro IdPermission KeyPermission h
    rintro ⟨Permissions, hp⟩
    cases Permissions <;> cases IdPermission <;> cases KeyPermission <;>
      revert h hp <;> decide

end PartySystemPermissions

/-! ## Completion results -/

/-- C6: in every one of the ten completion-result enumerations `UnknownInternalFailure`
has the value 0, `Succeeded` has the value 1, and every other member has a negative
value. -/
theorem completion_result_numbering :
    CompletionResultNumbering ECreatePartyCompletionResult.Declaration
        ECreatePartyCompletionResult.UnknownInternalFailure ECreatePartyCompletionResult.Succeeded
    ∧ CompletionResultNumbering EJoinPartyCompletionResult.Declaration
        EJoinPartyCompletionResult.UnknownInternalFailure EJoinPartyCompletionResult.Succeeded
    ∧ CompletionResultNumbering ELeavePartyCompletionResult.Declaration
        ELeavePartyCompletionResult.UnknownInternalFailure ELeavePartyCompletionResult.Succeeded
    ∧ CompletionResultNumbering EUpdateConfigCompletionResult.Declaration
        EUpdateConfigCompletionResult.UnknownInternalFailure EUpdateConfigCompletionResult.Succeeded
    ∧ CompletionResultNumbering ERequestPartyInvitationCompletionResult.Declaration
        ERequestPartyInvitationCompletionResult.UnknownInternalFailure ERequestPartyInvitationCompletionResult.Succeeded
    ∧ CompletionResultNumbering ESendPartyInvitationCompletionResult.Declaration
        ESendPartyInvitationCompletionResult.UnknownInternalFailure ESendPartyInvitationCompletionResult.Succeeded
    ∧ CompletionResultNumbering EAcceptPartyInvitationCompletionResult.Declaration
        EAcceptPartyInvitationCompletionResult.UnknownInternalFailure EAcceptPartyInvitationCompletionResult.Succeeded
    ∧ CompletionResultNumbering ERejectPartyInvitationCompletionResult.Declaration
        ERejectPartyInvitationCompletionResult.UnknownInternalFailure ERejectPartyInvitationCompletionResult.Succeeded
    ∧ CompletionResultNumbering EKickMemberCompletionResult.Declaration
        EKickMemberCompletionResult.UnknownInternalFailure EKickMemberCompletionResult.Succeeded
    ∧ CompletionResultNumbering EPromoteMemberCompletionResult.Declaration
        EPromoteMemberCompletionResult.UnknownInternalFailure EPromoteMemberCompletionResult.Succeeded := by
  refine ⟨by decide, by decide, by decide, by decide, by decide, by decide, by decide, by decide, by decide, by decide⟩

/-! ## The JSON round trip -/

set_option maxRecDepth 8192

namespace FOnlinePartyData

variable {FVariantData : Type}

/-- C2 fails for a blob with an empty attribute name. The blob holding the one attribute
"" = "x" has the key "", and whatever the JSON codec and the variant codec are, the blob
loaded from its own JSON text does not have it; with the sample writer, reader and
string codec the loaded blob is empty. -/
theorem FromJson_ToJson_loses_empty_name :
    HasKey (⟨[("", "x")]⟩ : FOnlinePartyData String) ""
    ∧ (¬ ∃ (Json : FJsonSerializer) (Variant : FVariantDataJson String),
        HasKey (FromJson Json Variant new (ToJson Json Variant ⟨[("", "x")]⟩ "")) "")
    ∧ FromJson SampleJson.Json SampleJson.StringVariant new
        (ToJson SampleJson.Json SampleJson.StringVariant ⟨[("", "x")]⟩ "") = ⟨[]⟩
    ∧ FromJson SampleJson.Json SampleJson.StringVariant new
        (ToJson SampleJson.Json SampleJson.StringVariant ⟨[("", "x")]⟩ "") ≠ ⟨[("", "x")]⟩ := by
  refine ⟨by decide, ?_, by decide, by decide⟩
  rintro ⟨Json, Variant, h⟩
  exact FromJson_no_empty_key Json Variant _ _ h

/-- C2 as amended: for a blob `pd` with unique attribute names, a JSON writer and reader
that read back the object written for `pd`, and a variant codec that reads back each
record written for `pd`, loading the text produced by `ToJson` with `FromJson` (into a
blob holding anything) yields exactly the attributes of `pd` whose name is not the empty
string, in the same order: the same names and the same value at every name. When no
attribute name of `pd` is empty the loaded blob is `pd`. -/
theorem FromJson_ToJson_nonempty_names (Json : FJsonSerializer)
    (Variant : FVariantDataJson FVariantData) (pd Prior : FOnlinePartyData FVariantData)
    (JsonString : String)
    (hUnique : pd.KeyValAttrs.UniqueKeys)
    (hJson : Json.Deserialize (Json.Serialize (ToJsonObject Variant pd))
      = some (ToJsonObject Variant pd))
    (hVariant : ∀ Name Value, (Name, Value) ∈ pd.KeyValAttrs →
      Variant.FromJson ((Variant.ToJson Value).SetStringField "Name" Name) = some Value) :
    FromJson Json Variant Prior (ToJson Json Variant pd JsonString)
        = ⟨pd.KeyValAttrs.filter fun Iterator => !Iterator.1.isEmpty⟩
    ∧ (∀ Name : String, HasKey (FromJson Json Variant Prior (ToJson Json Variant pd JsonString)) Name
        ↔ (HasKey pd Name ∧ Name ≠ ""))
    ∧ (∀ Name : String, Name ≠ "" →
        (FromJson Json Variant Prior (ToJson Json Variant pd JsonString)).KeyValAttrs.Find Name
          = pd.KeyValAttrs.Find Name)
    ∧ ((∀ Name : String, HasKey pd Name → Name ≠ "") →
        FromJson Json Variant Prior (ToJson Json Variant pd JsonString) = pd) := by
  have hText : ToJson Json Variant pd JsonString = Json.Serialize (ToJsonObject Variant pd) := by
    simp [ToJson, FString.Empty]
  have hLoad : FromJson Json Variant Prior (ToJson Json Variant pd JsonString)
      = ⟨pd.KeyValAttrs.filter fun Iterator => !Iterator.1.isEmpty⟩ := by
    rw [hText]
    unfold FromJson
    simp only [hJson]
    simp only [ToJsonObject, FJsonObject.HasTypedFieldArray_SetArrayField,
      FJsonObject.GetArrayField_SetArrayField, if_true, ToJsonProperties_eq_map]
    rw [foldl_FromJsonProperty_records Variant pd.KeyValAttrs _ hVariant hUnique
      (by simp [TMap.Empty, TMap.Keys])]
    simp [TMap.Empty]
  have hFind : ∀ (l : List (String × FVariantData)) (Name : String), Name ≠ "" →
      TMap.Find (l.filter fun Iterator => !Iterator.1.isEmpty) Name = TMap.Find l Name := by
    intro l Name hName
    induction l with
    | nil => rfl
    | cons e rest ih =>
      obtain ⟨k, v⟩ := e
      by_cases hEmpty : k.isEmpty = true
      · have hk : ¬ k = Name := by
          intro h
          exact hName (h ▸ (String.isEmpty_iff k).mp hEmpty)
        simp [List.filter_cons, hEmpty, TMap.Find, hk, ih]
      · by_cases hk : k = Name
        · subst hk
          simp [List.filter_cons, hEmpty, TMap.Find]
        · simp [List.filter_cons, hEmpty, TMap.Find, hk, ih]
  refine ⟨hLoad, ?_, ?_, ?_⟩
  · intro Name
    rw [hLoad]
    simp only [HasKey, TMap.Keys]
    constructor
    · intro h
      obtain ⟨Iterator, hmem, hfst⟩ := List.mem_map.mp h
      obtain ⟨hmem2, hEmpty⟩ := List.mem_filter.mp hmem
      refine ⟨List.mem_map.mpr ⟨Iterator, hmem2, hfst⟩, fun hName => ?_⟩
      rw [← hfst] at hName
      rw [hName] at hEmpty
      exact absurd hEmpty (by decide)
    · rintro ⟨h, hName⟩
      obtain ⟨Iterator, hmem, hfst⟩ := List.mem_map.mp h
      refine List.mem_map.mpr ⟨Iterator, List.mem_filter.mpr ⟨hmem, ?_⟩, hfst⟩
      have hne : ¬ Iterator.1.isEmpty = true := fun hEmpty =>
        hName (hfst ▸ (String.isEmpty_iff _).mp hEmpty)
      simpa using hne
  · intro Name hName
    rw [hLoad]
    exact hFind _ Name hName
  · intro hNames
    rw [hLoad]
    have hAll : ∀ Iterator ∈ pd.KeyValAttrs, (!Iterator.1.isEmpty) = true := by
      intro Iterator hmem
      have hne : Iterator.1 ≠ "" := hNames Iterator.1 (by
        simp only [HasKey, TMap.Keys, List.mem_map]
        exact ⟨Iterator, hmem, rfl⟩)
      cases hEmpty : Iterator.1.isEmpty
      · rfl
      · exact absurd ((String.isEmpty_iff _).mp hEmpty) hne
    rw [List.filter_eq_self.mpr hAll]

/-- Witness for C2 as amended: the blob holding "Map" = `Arena "7"` (a value with
quotes), "Mode" = the empty string and "" = "x" has unique names, the sample writer and
reader read back its object, and the string codec reads back each of its records; what
is loaded from its text is "Map" and "Mode" with their values. -/
theorem FromJson_ToJson_nonempty_names_witness :
    (⟨[("Map", "Arena \"7\""), ("Mode", ""), ("", "x")]⟩ : FOnlinePartyData String).KeyValAttrs.UniqueKeys
    ∧ SampleJson.Json.Deserialize (SampleJson.Json.Serialize
          (ToJsonObject SampleJson.StringVariant ⟨[("Map", "Arena \"7\""), ("Mode", ""), ("", "x")]⟩))
        = some (ToJsonObject SampleJson.StringVariant
            ⟨[("Map", "Arena \"7\""), ("Mode", ""), ("", "x")]⟩)
    ∧ FromJson SampleJson.Json SampleJson.StringVariant ⟨[("Old", "y")]⟩
          (ToJson SampleJson.Json SampleJson.StringVariant
            ⟨[("Map", "Arena \"7\""), ("Mode", ""), ("", "x")]⟩ "previous text")
        = ⟨[("Map", "Arena \"7\""), ("Mode", "")]⟩ :=
  ⟨by decide, rfl,
    (FromJson_ToJson_nonempty_names SampleJson.Json SampleJson.StringVariant
      ⟨[("Map", "Arena \"7\""), ("Mode", ""), ("", "x")]⟩ ⟨[("Old", "y")]⟩ "previous text"
      (by decide) rfl
      (by
        intro Name Value hmem
        simp only [List.mem_cons, Prod.mk.injEq, List.mem_singleton, List.not_mem_nil,
          or_false] at hmem
        rcases hmem with ⟨h1, h2⟩ | ⟨h1, h2⟩ | ⟨h1, h2⟩ <;> subst h1 h2 <;> rfl)).1⟩

end FOnlinePartyData

/-! ## Loading from JSON: what `FromJson` keeps and what it skips -/

namespace TMap

variable {KeyType ValueType : Type} [DecidableEq KeyType]

theorem mem_Add (m : TMap KeyType ValueType) (Key : KeyType) (Value : ValueType)
    (Entry : KeyType × ValueType) (h : Entry ∈ Add m Key Value) :
    Entry ∈ m ∨ Entry = (Key, Value) := by
  induction m with
  | nil =>
    right
    simpa [Add] using h
  | cons e rest ih =>
    obtain ⟨k, v⟩ := e
    by_cases hk : k = Key
    · simp only [Add, hk, if_true, List.mem_cons] at h
      rcases h with h | h
      · exact Or.inr h
      · exact Or.inl (List.mem_cons_of_mem _ h)
    · simp only [Add, hk, if_false, List.mem_cons] at h
      rcases h with h | h
      · exact Or.inl (h ▸ List.mem_cons_self _ _)
      · rcases ih h with h2 | h2
        · exact Or.inl (List.mem_cons_of_mem _ h2)
        · exact Or.inr h2

end TMap

namespace FOnlinePartyData

variable {FVariantData : Type}

theorem FromJsonProperty_eq_WellFormedRecord (Variant : FVariantDataJson FVariantData)
    (KeyValAttrs : FOnlineKeyValuePairs String FVariantData) (JsonPropertyValue : FJsonValue) :
    FromJsonProperty Variant KeyValAttrs JsonPropertyValue
      = match WellFormedRecord Variant JsonPropertyValue with
        | some Attribute => TMap.Add KeyValAttrs Attribute.1 Attribute.2
        | none => KeyValAttrs := by
  cases JsonPropertyValue with
  | Object Fields =>
    simp only [FromJsonProperty, FJsonValue.AsObject, FJsonObject.TryGetStringField,
      WellFormedRecord]
    cases hFind : TMap.Find Fields "Name" with
    | none => rfl
    | some NameValue =>
      cases NameValue with
      | String Name =>
        by_cases hEmpty : Name = ""
        · subst hEmpty
          simp [String.isEmpty]
        · have hIs : Name.isEmpty = false := by
            cases h : Name.isEmpty
            · rfl
            · exact absurd ((String.isEmpty_iff Name).mp h) hEmpty
          simp only [hIs, hEmpty, Bool.not_false, if_true, if_false]
          cases Variant.FromJson Fields <;> rfl
      | Null => rfl
      | Boolean _ => rfl
      | Number _ => rfl
      | Array _ => rfl
      | Object _ => rfl
  | Null => rfl
  | Boolean _ => rfl
  | Number _ => rfl
  | String _ => rfl
  | Array _ => rfl

theorem foldl_FromJsonProperty_eq_AddAll (Variant : FVariantDataJson FVariantData)
    (JsonProperties : List FJsonValue) :
    ∀ KeyValAttrs : FOnlineKeyValuePairs String FVariantData,
      JsonProperties.foldl (FromJsonProperty Variant) KeyValAttrs
        = AddAll KeyValAttrs (JsonProperties.filterMap (WellFormedRecord Variant)) := by
  induction JsonProperties with
  | nil => intro KeyValAttrs; rfl
  | cons Record rest ih =>
    intro KeyValAttrs
    rw [List.foldl_cons, ih, FromJsonProperty_eq_WellFormedRecord]
    cases hRecord : WellFormedRecord Variant Record with
    | none => simp [List.filterMap_cons, hRecord]
    | some Attribute => simp [List.filterMap_cons, hRecord, AddAll]

theorem mem_AddAll (Attributes : List (String × FVariantData)) :
    ∀ (KeyValAttrs : FOnlineKeyValuePairs String FVariantData) (Entry : String × FVariantData),
      Entry ∈ AddAll KeyValAttrs Attributes → Entry ∈ KeyValAttrs ∨ Entry ∈ Attributes := by
  induction Attributes with
  | nil => intro KeyValAttrs Entry h; exact Or.inl h
  | cons Attribute rest ih =>
    intro KeyValAttrs Entry h
    have h2 : Entry ∈ AddAll (TMap.Add KeyValAttrs Attribute.1 Attribute.2) rest := h
    rcases ih _ _ h2 with h3 | h3
    · rcases TMap.mem_Add _ _ _ _ h3 with h4 | h4
      · exact Or.inl h4
      · exact Or.inr (h4 ▸ List.mem_cons_self _ _)
    · exact Or.inr (List.mem_cons_of_mem _ h3)

theorem FromJson_of_Attrs (Json : FJsonSerializer) (Variant : FVariantDataJson FVariantData)
    (This : FOnlinePartyData FVariantData) (JsonString : String) (JsonObject : FJsonObject)
    (JsonProperties : List FJsonValue)
    (hRead : Json.Deserialize JsonString = some JsonObject)
    (hAttrs : TMap.Find JsonObject "Attrs" = some (FJsonValue.Array JsonProperties)) :
    FromJson Json Variant This JsonString
      = ⟨AddAll [] (JsonProperties.filterMap (WellFormedRecord Variant))⟩ := by
  simp only [FromJson, hRead, FJsonObject.HasTypedFieldArray, FJsonObject.GetArrayField,
    hAttrs, if_true, foldl_FromJsonProperty_eq_AddAll, TMap.Empty]

theorem FromJson_of_no_Attrs (Json : FJsonSerializer) (Variant : FVariantDataJson FVariantData)
    (This : FOnlinePartyData FVariantData) (JsonString : String)
    (h : ∀ JsonObject, Json.Deserialize JsonString = some JsonObject →
      JsonObject.HasTypedFieldArray "Attrs" = false) :
    FromJson Json Variant This JsonString = ⟨[]⟩ := by
  unfold FromJson
  cases hRead : Json.Deserialize JsonString with
  | none => rfl
  | some JsonObject => simp [h JsonObject hRead, TMap.Empty]

end FOnlinePartyData

namespace FOnlinePartyData

variable {FVariantData : Type}

/-- C11: `FromJson` replaces all attributes. Whatever the text and whatever the blob held
before, the blob after `FromJson(text)` is the blob an empty one becomes, so nothing
from before the call is kept; every attribute it holds is spelled by a record of the
"Attrs" array read from the text; and when the text is not read as a JSON object with
an array-valued "Attrs" field the blob ends up empty. -/
theorem FromJson_replaces_all (Json : FJsonSerializer) (Variant : FVariantDataJson FVariantData)
    (Prior : FOnlinePartyData FVariantData) (JsonString : String) :
    FromJson Json Variant Prior JsonString = FromJson Json Variant new JsonString
    ∧ (∀ (Name : String) (Value : FVariantData),
        (Name, Value) ∈ (FromJson Json Variant Prior JsonString).KeyValAttrs →
        ∃ (JsonObject : FJsonObject) (JsonProperties : List FJsonValue) (Record : FJsonValue),
          Json.Deserialize JsonString = some JsonObject
          ∧ TMap.Find JsonObject "Attrs" = some (FJsonValue.Array JsonProperties)
          ∧ Record ∈ JsonProperties
          ∧ WellFormedRecord Variant Record = some (Name, Value))
    ∧ (Json.Deserialize JsonString = none → FromJson Json Variant Prior JsonString = ⟨[]⟩)
    ∧ (∀ JsonObject : FJsonObject, Json.Deserialize JsonString = some JsonObject →
        JsonObject.HasTypedFieldArray "Attrs" = false →
        FromJson Json Variant Prior JsonString = ⟨[]⟩) := by
  refine ⟨rfl, ?_, ?_, ?_⟩
  · intro Name Value hmem
    cases hRead : Json.Deserialize JsonString with
    | none =>
      rw [FromJson_of_no_Attrs Json Variant Prior JsonString
        (fun JsonObject h => by rw [hRead] at h; cases h)] at hmem
      cases hmem
    | some JsonObject =>
      cases hFind : TMap.Find JsonObject "Attrs" with
      | none =>
        rw [FromJson_of_no_Attrs Json Variant Prior JsonString (fun JsonObject2 h => by
          rw [hRead] at h
          cases h
          simp [FJsonObject.HasTypedFieldArray, hFind])] at hmem
        cases hmem
      | some AttrsValue =>
        cases AttrsValue with
        | Array JsonProperties =>
          rw [FromJson_of_Attrs Json Variant Prior JsonString JsonObject JsonProperties
            hRead hFind] at hmem
          rcases mem_AddAll _ _ _ hmem with h | h
          · cases h
          · obtain ⟨Record, hRecord, hWell⟩ := List.mem_filterMap.mp h
            exact ⟨JsonObject, JsonProperties, Record, rfl, hFind, hRecord, hWell⟩
        | Null | Boolean _ | Number _ | String _ | Object _ =>
          rw [FromJson_of_no_Attrs Json Variant Prior JsonString (fun JsonObject2 h => by
            rw [hRead] at h
            cases h
            simp [FJsonObject.HasTypedFieldArray, hFind])] at hmem
          cases hmem
  · intro hRead
    exact FromJson_of_no_Attrs Json Variant Prior JsonString
      (fun JsonObject h => by rw [hRead] at h; cases h)
  · intro JsonObject hRead hAttrs
    exact FromJson_of_no_Attrs Json Variant Prior JsonString (fun JsonObject2 h => by
      rw [hRead] at h
      cases h
      exact hAttrs)

/-- C12: `FromJson` is lenient per record. For a text read as an object whose "Attrs"
field is the array `Records`, the loaded blob is exactly the well-formed records of the
array, added in array order; a malformed record is skipped and the records before and
after it are loaded as if it were not there; and the loop body leaves the map alone for
a record that is not an object, has no "Name", has a "Name" that is not a string or is
empty, or holds a value the variant codec cannot decode. -/
theorem FromJson_skips_malformed_records (Json : FJsonSerializer)
    (Variant : FVariantDataJson FVariantData) (Prior : FOnlinePartyData FVariantData)
    (JsonString : String) (JsonObject : FJsonObject) (Records : List FJsonValue)
    (hRead : Json.Deserialize JsonString = some JsonObject)
    (hAttrs : TMap.Find JsonObject "Attrs" = some (FJsonValue.Array Records)) :
    FromJson Json Variant Prior JsonString
        = ⟨AddAll [] (Records.filterMap (WellFormedRecord Variant))⟩
    ∧ (∀ (Before After : List FJsonValue) (Malformed : FJsonValue),
        Records = Before ++ Malformed :: After →
        WellFormedRecord Variant Malformed = none →
        FromJson Json Variant Prior JsonString
          = ⟨AddAll [] ((Before ++ After).filterMap (WellFormedRecord Variant))⟩)
    ∧ (∀ (KeyValAttrs : FOnlineKeyValuePairs String FVariantData) (Record : FJsonValue),
        Record.AsObject = none → FromJsonProperty Variant KeyValAttrs Record = KeyValAttrs)
    ∧ (∀ (KeyValAttrs : FOnlineKeyValuePairs String FVariantData) (Fields : FJsonObject),
        TMap.Find Fields "Name" = none →
        FromJsonProperty Variant KeyValAttrs (FJsonValue.Object Fields) = KeyValAttrs)
    ∧ (∀ (KeyValAttrs : FOnlineKeyValuePairs String FVariantData) (Fields : FJsonObject)
        (NameValue : FJsonValue), TMap.Find Fields "Name" = some NameValue →
        (∀ Name : String, NameValue ≠ FJsonValue.String Name) →
        FromJsonProperty Variant KeyValAttrs (FJsonValue.Object Fields) = KeyValAttrs)
    ∧ (∀ (KeyValAttrs : FOnlineKeyValuePairs String FVariantData) (Fields : FJsonObject),
        TMap.Find Fields "Name" = some (FJsonValue.String "") →
        FromJsonProperty Variant KeyValAttrs (FJsonValue.Object Fields) = KeyValAttrs)
    ∧ (∀ (KeyValAttrs : FOnlineKeyValuePairs String FVariantData) (Fields : FJsonObject),
        Variant.FromJson Fields = none →
        FromJsonProperty Variant KeyValAttrs (FJsonValue.Object Fields) = KeyValAttrs) := by
  have hLoad := FromJson_of_Attrs Json Variant Prior JsonString JsonObject Records hRead hAttrs
  refine ⟨hLoad, ?_, ?_, ?_, ?_, ?_, ?_⟩
  · intro Before After Malformed hSplit hMalformed
    rw [hLoad, hSplit]
    simp [List.filterMap_append, List.filterMap_cons, hMalformed]
  · intro KeyValAttrs Record hObject
    cases Record with
    | Object Fields => simp [FJsonValue.AsObject] at hObject
    | Null | Boolean _ | Number _ | String _ | Array _ => rfl
  · intro KeyValAttrs Fields hFind
    rw [FromJsonProperty_eq_WellFormedRecord]
    simp [WellFormedRecord, hFind]
  · intro KeyValAttrs Fields NameValue hFind hNot
    rw [FromJsonProperty_eq_WellFormedRecord]
    cases NameValue with
    | String Name => exact absurd rfl (hNot Name)
    | Null | Boolean _ | Number _ | Array _ | Object _ => simp [WellFormedRecord, hFind]
  · intro KeyValAttrs Fields hFind
    rw [FromJsonProperty_eq_WellFormedRecord]
    simp [WellFormedRecord, hFind]
  · intro KeyValAttrs Fields hDecode
    rw [FromJsonProperty_eq_WellFormedRecord]
    simp only [WellFormedRecord, hDecode]
    cases TMap.Find Fields "Name" with
    | none => rfl
    | some NameValue =>
      cases NameValue with
      | String Name => by_cases hEmpty : Name = "" <;> simp [hEmpty]
      | Null | Boolean _ | Number _ | Array _ | Object _ => rfl

/-- Witness for C12: a text whose "Attrs" array holds a number, a record for "Map", a
record without "Name", a record with an empty "Name", a record the string codec does
not decode, a record whose "Name" is a number, and a record for "Mode". The sample
reader reads it, and what is loaded is "Map" and "Mode". -/
theorem FromJson_skips_malformed_records_witness :
    SampleJson.Json.Deserialize
        "\x7b\"Attrs\":[5,\x7b\"Type\":\"String\",\"Value\":\"a\",\"Name\":\"Map\"\x7d,\x7b\"Type\":\"String\",\"Value\":\"b\"\x7d,\x7b\"Type\":\"String\",\"Value\":\"c\",\"Name\":\"\"\x7d,\x7b\"Type\":\"Int\",\"Value\":\"d\",\"Name\":\"Size\"\x7d,\x7b\"Type\":\"String\",\"Value\":\"e\",\"Name\":7\x7d,\x7b\"Type\":\"String\",\"Value\":\"f\",\"Name\":\"Mode\"\x7d]\x7d"
      = some [("Attrs", FJsonValue.Array
        [ FJsonValue.Number 5,
          FJsonValue.Object [("Type", .String "String"), ("Value", .String "a"), ("Name", .String "Map")],
          FJsonValue.Object [("Type", .String "String"), ("Value", .String "b")],
          FJsonValue.Object [("Type", .String "String"), ("Value", .String "c"), ("Name", .String "")],
          FJsonValue.Object [("Type", .String "Int"), ("Value", .String "d"), ("Name", .String "Size")],
          FJsonValue.Object [("Type", .String "String"), ("Value", .String "e"), ("Name", .Number 7)],
          FJsonValue.Object [("Type", .String "String"), ("Value", .String "f"), ("Name", .String "Mode")] ])]
    ∧ TMap.Find
        ([("Attrs", FJsonValue.Array
        [ FJsonValue.Number 5,
          FJsonValue.Object [("Type", .String "String"), ("Value", .String "a"), ("Name", .String "Map")],
          FJsonValue.Object [("Type", .String "String"), ("Value", .String "b")],
          FJsonValue.Object [("Type", .String "String"), ("Value", .String "c"), ("Name", .String "")],
          FJsonValue.Object [("Type", .String "Int"), ("Value", .String "d"), ("Name", .String "Size")],
          FJsonValue.Object [("Type", .String "String"), ("Value", .String "e"), ("Name", .Number 7)],
          FJsonValue.Object [("Type", .String "String"), ("Value", .String "f"), ("Name", .String "Mode")] ])] : FJsonObject) "Attrs"
      = some (FJsonValue.Array
        [ FJsonValue.Number 5,
          FJsonValue.Object [("Type", .String "String"), ("Value", .String "a"), ("Name", .String "Map")],
          FJsonValue.Object [("Type", .String "String"), ("Value", .String "b")],
          FJsonValue.Object [("Type", .String "String"), ("Value", .String "c"), ("Name", .String "")],
          FJsonValue.Object [("Type", .String "Int"), ("Value", .String "d"), ("Name", .String "Size")],
          FJsonValue.Object [("Type", .String "String"), ("Value", .String "e"), ("Name", .Number 7)],
          FJsonValue.Object [("Type", .String "String"), ("Value", .String "f"), ("Name", .String "Mode")] ])
    ∧ FromJson SampleJson.Json SampleJson.StringVariant ⟨[("Old", "x")]⟩
        "\x7b\"Attrs\":[5,\x7b\"Type\":\"String\",\"Value\":\"a\",\"Name\":\"Map\"\x7d,\x7b\"Type\":\"String\",\"Value\":\"b\"\x7d,\x7b\"Type\":\"String\",\"Value\":\"c\",\"Name\":\"\"\x7d,\x7b\"Type\":\"Int\",\"Value\":\"d\",\"Name\":\"Size\"\x7d,\x7b\"Type\":\"String\",\"Value\":\"e\",\"Name\":7\x7d,\x7b\"Type\":\"String\",\"Value\":\"f\",\"Name\":\"Mode\"\x7d]\x7d"
      = ⟨[("Map", "a"), ("Mode", "f")]⟩ :=
  ⟨rfl, rfl,
    (FromJson_skips_malformed_records SampleJson.Json SampleJson.StringVariant
      ⟨[("Old", "x")]⟩
      "\x7b\"Attrs\":[5,\x7b\"Type\":\"String\",\"Value\":\"a\",\"Name\":\"Map\"\x7d,\x7b\"Type\":\"String\",\"Value\":\"b\"\x7d,\x7b\"Type\":\"String\",\"Value\":\"c\",\"Name\":\"\"\x7d,\x7b\"Type\":\"Int\",\"Value\":\"d\",\"Name\":\"Size\"\x7d,\x7b\"Type\":\"String\",\"Value\":\"e\",\"Name\":7\x7d,\x7b\"Type\":\"String\",\"Value\":\"f\",\"Name\":\"Mode\"\x7d]\x7d"
      [("Attrs", FJsonValue.Array
        [ FJsonValue.Number 5,
          FJsonValue.Object [("Type", .String "String"), ("Value", .String "a"), ("Name", .String "Map")],
          FJsonValue.Object [("Type", .String "String"), ("Value", .String "b")],
          FJsonValue.Object [("Type", .String "String"), ("Value", .String "c"), ("Name", .String "")],
          FJsonValue.Object [("Type", .String "Int"), ("Value", .String "d"), ("Name", .String "Size")],
          FJsonValue.Object [("Type", .String "String"), ("Value", .String "e"), ("Name", .Number 7)],
          FJsonValue.Object [("Type", .String "String"), ("Value", .String "f"), ("Name", .String "Mode")] ])]
      [ FJsonValue.Number 5,
          FJsonValue.Object [("Type", .String "String"), ("Value", .String "a"), ("Name", .String "Map")],
          FJsonValue.Object [("Type", .String "String"), ("Value", .String "b")],
          FJsonValue.Object [("Type", .String "String"), ("Value", .String "c"), ("Name", .String "")],
          FJsonValue.Object [("Type", .String "Int"), ("Value", .String "d"), ("Name", .String "Size")],
          FJsonValue.Object [("Type", .String "String"), ("Value", .String "e"), ("Name", .Number 7)],
          FJsonValue.Object [("Type", .String "String"), ("Value", .String "f"), ("Name", .String "Mode")] ]
      rfl rfl).1.trans (by decide)⟩

end FOnlinePartyData

/-! ## Party state, party records and party type ids -/

/-- C13 (the code departs from it): `ToString(EPartyState)` is documented to return the
stringified version of the state passed in. The states `Reconnecting` and `CleanUp`
have no `case` in the `switch`: for both the function returns the empty string, so the
result is empty and two distinct states share it. The six other states are named. -/
theorem EPartyState_ToString_unnamed_states :
    EPartyState.ToString EPartyState.Reconnecting = ""
    ∧ EPartyState.ToString EPartyState.CleanUp = ""
    ∧ EPartyState.Reconnecting ≠ EPartyState.CleanUp
    ∧ (List.map EPartyState.ToString
        [EPartyState.None, EPartyState.CreatePending, EPartyState.JoinPending,
          EPartyState.LeavePending, EPartyState.Active, EPartyState.Disconnected]
        = ["None", "Create pending", "Join pending", "Leave pending", "Active",
            "Disconnected"]) := by
  refine ⟨rfl, rfl, by decide, rfl⟩

/-- C14: a party record constructed from a party id `p` and a party type id `t` has
`PartyId = p`, `PartyTypeId = t`, lifecycle `State = None`, no leader set, and a `Config`
equal to the default-constructed `FPartyConfiguration`. -/
theorem FOnlineParty_new_fields {FOnlinePartyId FUniqueNetId FVariantData : Type}
    (p : FOnlinePartyId) (t : FOnlinePartyTypeId) :
    (FOnlineParty.new p t : FOnlineParty FOnlinePartyId FUniqueNetId FVariantData).PartyId = p
    ∧ (FOnlineParty.new p t : FOnlineParty FOnlinePartyId FUniqueNetId FVariantData).PartyTypeId = t
    ∧ (FOnlineParty.new p t : FOnlineParty FOnlinePartyId FUniqueNetId FVariantData).State
        = EPartyState.None
    ∧ (FOnlineParty.new p t : FOnlineParty FOnlinePartyId FUniqueNetId FVariantData).LeaderId
        = none
    ∧ (FOnlineParty.new p t : FOnlineParty FOnlinePartyId FUniqueNetId FVariantData).Config
        = FPartyConfiguration.new
    ∧ (FOnlineParty.new p t : FOnlineParty FOnlinePartyId FUniqueNetId FVariantData).Config.MaxMembers
        = 0
    ∧ (FOnlineParty.new p t : FOnlineParty FOnlinePartyId FUniqueNetId FVariantData).Config.PresencePermissions
        = PartySystemPermissions.EPresencePermissions.AnyonePublishIdAnyonePublishKey :=
  ⟨rfl, rfl, rfl, rfl, rfl, rfl, rfl⟩

namespace IOnlinePartySystem

/-- C15: `GetPrimaryPartyTypeId()` wraps the reserved value 0x11111111, and for an
internal value `x` other than 0x11111111 the `ensure` of `MakePartyTypeId(x)` holds and
the result wraps `x`, so the id made is not the primary party type id. -/
theorem MakePartyTypeId_not_primary (x : Nat) (hx : x ≠ 0x11111111) :
    GetPrimaryPartyTypeId.Value = 0x11111111
    ∧ (MakePartyTypeId x).bEnsureHeld = true
    ∧ (MakePartyTypeId x).Result.Value = x
    ∧ (MakePartyTypeId x).Result ≠ GetPrimaryPartyTypeId := by
  refine ⟨rfl, ?_, rfl, ?_⟩
  · simpa [MakePartyTypeId, PrimaryPartyTypeIdValue] using hx
  · intro h
    have h2 : x = 0x11111111 := congrArg FOnlinePartyTypeId.Value h
    exact hx h2

/-- Witness for C15: 7 is not the reserved value; `MakePartyTypeId(7)` passes its
`ensure` and wraps 7. -/
theorem MakePartyTypeId_not_primary_witness :
    (7 : Nat) ≠ 0x11111111
    ∧ (GetPrimaryPartyTypeId.Value = 0x11111111
      ∧ (MakePartyTypeId 7).bEnsureHeld = true
      ∧ (MakePartyTypeId 7).Result.Value = 7
      ∧ (MakePartyTypeId 7).Result ≠ GetPrimaryPartyTypeId) :=
  ⟨by decide, MakePartyTypeId_not_primary 7 (by decide)⟩

end IOnlinePartySystem

/-! ## The JSON round trip of a blob without empty names -/

namespace FOnlinePartyData

variable {FVariantData : Type}

theorem FromJson_ToJson_eq_filter (Json : FJsonSerializer)
    (Variant : FVariantDataJson FVariantData) (pd Prior : FOnlinePartyData FVariantData)
    (JsonString : String)
    (hUnique : pd.KeyValAttrs.UniqueKeys)
    (hJson : Json.Deserialize (Json.Serialize (ToJsonObject Variant pd))
      = some (ToJsonObject Variant pd))
    (hVariant : ∀ Name Value, (Name, Value) ∈ pd.KeyValAttrs →
      Variant.FromJson ((Variant.ToJson Value).SetStringField "Name" Name) = some Value) :
    FromJson Json Variant Prior (ToJson Json Variant pd JsonString)
      = ⟨pd.KeyValAttrs.filter fun Iterator => !Iterator.1.isEmpty⟩ := by
  have hText : ToJson Json Variant pd JsonString = Json.Serialize (ToJsonObject Variant pd) := by
    simp [ToJson, FString.Empty]
  rw [hText]
  unfold FromJson
  simp only [hJson]
  simp only [ToJsonObject, FJsonObject.HasTypedFieldArray_SetArrayField,
    FJsonObject.GetArrayField_SetArrayField, if_true, ToJsonProperties_eq_map]
  rw [foldl_FromJsonProperty_records Variant pd.KeyValAttrs _ hVariant hUnique
    (by simp [TMap.Empty, TMap.Keys])]
  simp [TMap.Empty]

/-- C20: for a blob `pd` all of whose keys are non-empty strings (and, being a map, are
unique), a JSON writer and reader that read back what is written for `pd`, and a variant
codec that reads back each record written for `pd`, `FromJson` applied to the text
produced by `ToJson(pd)` yields a blob with the same key set as `pd` and the same value
at every key. -/
theorem FromJson_ToJson_same_keys_and_values (Json : FJsonSerializer)
    (Variant : FVariantDataJson FVariantData) (pd Prior : FOnlinePartyData FVariantData)
    (JsonString : String)
    (hUnique : pd.KeyValAttrs.UniqueKeys)
    (hNames : ∀ Name : String, HasKey pd Name → Name ≠ "")
    (hJson : Json.Deserialize (Json.Serialize (ToJsonObject Variant pd))
      = some (ToJsonObject Variant pd))
    (hVariant : ∀ Name Value, (Name, Value) ∈ pd.KeyValAttrs →
      Variant.FromJson ((Variant.ToJson Value).SetStringField "Name" Name) = some Value) :
    (∀ Name : String,
        HasKey (FromJson Json Variant Prior (ToJson Json Variant pd JsonString)) Name
          ↔ HasKey pd Name)
    ∧ (∀ Name : String,
        (FromJson Json Variant Prior (ToJson Json Variant pd JsonString)).KeyValAttrs.Find Name
          = pd.KeyValAttrs.Find Name)
    ∧ (∀ (Name : String) (Out : FVariantData),
        (GetAttribute (FromJson Json Variant Prior (ToJson Json Variant pd JsonString))
            Name Out).OutAttrValue
          = (GetAttribute pd Name Out).OutAttrValue) := by
  have hAll : ∀ Iterator ∈ pd.KeyValAttrs, (!Iterator.1.isEmpty) = true := by
    intro Iterator hmem
    have hne : Iterator.1 ≠ "" := hNames Iterator.1 (by
      simp only [HasKey, TMap.Keys, List.mem_map]
      exact ⟨Iterator, hmem, rfl⟩)
    cases hEmpty : Iterator.1.isEmpty
    · rfl
    · exact absurd ((String.isEmpty_iff _).mp hEmpty) hne
  have hSame : (FromJson Json Variant Prior (ToJson Json Variant pd JsonString)).KeyValAttrs
      = pd.KeyValAttrs := by
    rw [FromJson_ToJson_eq_filter Json Variant pd Prior JsonString hUnique hJson hVariant]
    exact List.filter_eq_self.mpr hAll
  refine ⟨fun Name => ?_, fun Name => ?_, fun Name Out => ?_⟩
  · simp only [HasKey, hSame]
  · rw [hSame]
  · simp only [GetAttribute, hSame]

/-- Witness for C20: the blob holding "Region" = `EU \ west` (a value with a backslash)
and "Motd" = the empty string has non-empty, unique keys; the sample writer, reader and
string codec read back what they write for it, and the blob loaded from its text has
its keys and values. -/
theorem FromJson_ToJson_same_keys_and_values_witness :
    (⟨[("Region", "EU \\ west"), ("Motd", "")]⟩ : FOnlinePartyData String).KeyValAttrs.UniqueKeys
    ∧ (∀ Name : String,
        HasKey (⟨[("Region", "EU \\ west"), ("Motd", "")]⟩ : FOnlinePartyData String) Name →
        Name ≠ "")
    ∧ SampleJson.Json.Deserialize (SampleJson.Json.Serialize
          (ToJsonObject SampleJson.StringVariant ⟨[("Region", "EU \\ west"), ("Motd", "")]⟩))
        = some (ToJsonObject SampleJson.StringVariant
            ⟨[("Region", "EU \\ west"), ("Motd", "")]⟩)
    ∧ (FromJson SampleJson.Json SampleJson.StringVariant ⟨[("Motd", "old")]⟩
          (ToJson SampleJson.Json SampleJson.StringVariant
            ⟨[("Region", "EU \\ west"), ("Motd", "")]⟩ "")).KeyValAttrs.Find "Motd"
        = some ""
    ∧ (FromJson SampleJson.Json SampleJson.StringVariant ⟨[("Motd", "old")]⟩
          (ToJson SampleJson.Json SampleJson.StringVariant
            ⟨[("Region", "EU \\ west"), ("Motd", "")]⟩ "")).KeyValAttrs.Find "Region"
        = some "EU \\ west" :=
  have hNames : ∀ Name : String,
      HasKey (⟨[("Region", "EU \\ west"), ("Motd", "")]⟩ : FOnlinePartyData String) Name →
      Name ≠ "" := by
    intro Name h
    simp only [HasKey, TMap.Keys, List.map_cons, List.map_nil, List.mem_cons,
      List.mem_singleton, List.not_mem_nil, or_false] at h
    rcases h with h | h <;> subst h <;> decide
  have hRoundTrip := FromJson_ToJson_same_keys_and_values SampleJson.Json
    SampleJson.StringVariant ⟨[("Region", "EU \\ west"), ("Motd", "")]⟩ ⟨[("Motd", "old")]⟩ ""
    (by decide) hNames rfl
    (by
      intro Name Value hmem
      simp only [List.mem_cons, Prod.mk.injEq, List.mem_singleton, List.not_mem_nil,
        or_false] at hmem
      rcases hmem with ⟨h1, h2⟩ | ⟨h1, h2⟩ <;> subst h1 h2 <;> rfl)
  ⟨by decide, hNames, rfl, (hRoundTrip.2.1 "Motd").trans rfl,
    (hRoundTrip.2.1 "Region").trans rfl⟩

end FOnlinePartyData

/-! ## The party coordinator of the specification -/

namespace PartyCoordinator

variable {FOnlinePartyId FUniqueNetId FVariantData : Type} [DecidableEq FUniqueNetId]

/-- C17: for a local user and a party type for which a creation can start (the user holds
no party of that type and no creation of it is in flight), issuing `CreateParty` twice
in a row before the first completes returns true for the first call and false for the
second, rejected as `AlreadyCreatingParty`; neither call invokes a callback, the second
leaves the coordinator as the first left it, and the completion of the creation invokes
exactly one callback, a further completion invoking none. -/
theorem CreateParty_twice_in_a_row (State : FCreateState FUniqueNetId)
    (LocalUserId : FUniqueNetId) (PartyTypeId : FOnlinePartyTypeId)
    (hFree : (LocalUserId, PartyTypeId) ∉ State.HeldParties)
    (hIdle : (LocalUserId, PartyTypeId) ∉ State.PendingCreates) :
    (CreateParty State LocalUserId PartyTypeId).bStarted = true
    ∧ (CreateParty (CreateParty State LocalUserId PartyTypeId).State
        LocalUserId PartyTypeId).bStarted = false
    ∧ (CreateParty (CreateParty State LocalUserId PartyTypeId).State
        LocalUserId PartyTypeId).Rejection
        = some ECreatePartyCompletionResult.AlreadyCreatingParty
    ∧ (CreateParty (CreateParty State LocalUserId PartyTypeId).State
        LocalUserId PartyTypeId).State.PendingCreates
        = State.PendingCreates ++ [(LocalUserId, PartyTypeId)]
    ∧ (CreateParty (CreateParty State LocalUserId PartyTypeId).State
        LocalUserId PartyTypeId).State.CreateCallbacks = State.CreateCallbacks
    ∧ (∀ Result : ECreatePartyCompletionResult,
        (OnCreatePartyCompleted
          (CreateParty (CreateParty State LocalUserId PartyTypeId).State
            LocalUserId PartyTypeId).State
          LocalUserId PartyTypeId Result).CreateCallbacks
          = State.CreateCallbacks ++ [(LocalUserId, PartyTypeId, Result)])
    ∧ (∀ Result Again : ECreatePartyCompletionResult,
        (OnCreatePartyCompleted
          (OnCreatePartyCompleted
            (CreateParty (CreateParty State LocalUserId PartyTypeId).State
              LocalUserId PartyTypeId).State
            LocalUserId PartyTypeId Result)
          LocalUserId PartyTypeId Again).CreateCallbacks
          = State.CreateCallbacks ++ [(LocalUserId, PartyTypeId, Result)]) := by
  have hFirst : CreateParty State LocalUserId PartyTypeId
      = { bStarted := true
          Rejection := none
          State := { State with
            PendingCreates := State.PendingCreates ++ [(LocalUserId, PartyTypeId)] } } := by
    simp [CreateParty, hFree, hIdle]
  have hSecond : CreateParty (CreateParty State LocalUserId PartyTypeId).State
        LocalUserId PartyTypeId
      = { bStarted := false
          Rejection := some ECreatePartyCompletionResult.AlreadyCreatingParty
          State := (CreateParty State LocalUserId PartyTypeId).State } := by
    rw [hFirst]
    simp [CreateParty, hFree]
  have hDone : ∀ Result : ECreatePartyCompletionResult,
      OnCreatePartyCompleted (CreateParty State LocalUserId PartyTypeId).State
          LocalUserId PartyTypeId Result
        = { HeldParties :=
              if Result = ECreatePartyCompletionResult.Succeeded then
                State.HeldParties ++ [(LocalUserId, PartyTypeId)]
              else State.HeldParties
            PendingCreates := State.PendingCreates
            CreateCallbacks := State.CreateCallbacks ++ [(LocalUserId, PartyTypeId, Result)] } := by
    intro Result
    rw [hFirst]
    have hKeep : State.PendingCreates.filter
        (fun Pending => !decide (Pending = (LocalUserId, PartyTypeId)))
        = State.PendingCreates := by
      apply List.filter_eq_self.mpr
      intro Pending hmem
      have hne : Pending ≠ (LocalUserId, PartyTypeId) := fun h => hIdle (h ▸ hmem)
      simp [hne]
    simp [OnCreatePartyCompleted, List.filter_append, hKeep]
  refine ⟨?_, ?_, ?_, ?_, ?_, ?_, ?_⟩
  · rw [hFirst]
  · rw [hSecond]
  · rw [hSecond]
  · rw [hSecond, hFirst]
  · rw [hSecond, hFirst]
  · intro Result
    rw [hSecond]
    simp only [hDone]
  · intro Result Again
    rw [hSecond]
    simp only [hDone]
    simp [OnCreatePartyCompleted, hIdle]

/-- Witness for C17: in a coordinator where "alice" holds no party and creates none,
"alice" creating a party of type 7 twice gets true and then false. -/
theorem CreateParty_twice_in_a_row_witness :
    (("alice", FOnlinePartyTypeId.mk 7) ∉ ([] : List (String × FOnlinePartyTypeId)))
    ∧ (CreateParty (⟨[], [], []⟩ : FCreateState String) "alice" ⟨7⟩).bStarted = true
    ∧ (CreateParty (CreateParty (⟨[], [], []⟩ : FCreateState String) "alice" ⟨7⟩).State
        "alice" ⟨7⟩).bStarted = false
    ∧ (CreateParty (CreateParty (⟨[], [], []⟩ : FCreateState String) "alice" ⟨7⟩).State
        "alice" ⟨7⟩).Rejection = some ECreatePartyCompletionResult.AlreadyCreatingParty :=
  have h := CreateParty_twice_in_a_row (⟨[], [], []⟩ : FCreateState String) "alice" ⟨7⟩
    (List.not_mem_nil _) (List.not_mem_nil _)
  ⟨List.not_mem_nil _, h.1, h.2.1, h.2.2.1⟩

/-- C18: after `PromoteMember(u, party, target)` succeeds, `IsMemberLeader(u, party,
target)` is true and `IsMemberLeader` is false for the previous leader, who is `u`, and
a subsequent `KickMember` by the previous leader, whoever the member to kick, is
rejected with `LocalMemberNotLeader` and changes nothing. -/
theorem PromoteMember_then_leader (LocalUserId TargetMemberId : FUniqueNetId)
    (Party : FCachedParty FOnlinePartyId FUniqueNetId FVariantData)
    (hPromoted : (PromoteMember LocalUserId Party TargetMemberId).1
      = EPromoteMemberCompletionResult.Succeeded) :
    IsMemberLeader LocalUserId (PromoteMember LocalUserId Party TargetMemberId).2
        TargetMemberId = true
    ∧ Party.Party.LeaderId = some LocalUserId
    ∧ (∀ Previous : FUniqueNetId, Party.Party.LeaderId = some Previous →
        IsMemberLeader LocalUserId (PromoteMember LocalUserId Party TargetMemberId).2
            Previous = false
        ∧ ∀ Kicked : FUniqueNetId,
            KickMember Previous (PromoteMember LocalUserId Party TargetMemberId).2 Kicked
              = (EKickMemberCompletionResult.LocalMemberNotLeader,
                  (PromoteMember LocalUserId Party TargetMemberId).2)) := by
  unfold PromoteMember at hPromoted ⊢
  by_cases hMember : LocalUserId ∈ Party.Members
  · by_cases hLeader : Party.Party.LeaderId = some LocalUserId
    · by_cases hSelf : TargetMemberId = LocalUserId
      · simp [hMember, hLeader, hSelf] at hPromoted
      · by_cases hTarget : TargetMemberId ∈ Party.Members
        · simp only [hMember, hLeader, hSelf, hTarget, not_true_eq_false, ne_eq, if_false]
          refine ⟨by simp [IsMemberLeader], trivial, ?_⟩
          intro Previous hPrevious
          have hEq : Previous = LocalUserId := (Option.some.inj hPrevious).symm
          subst hEq
          have hNe : ¬ Previous = TargetMemberId := fun h => hSelf h.symm
          refine ⟨?_, ?_⟩
          · simp [IsMemberLeader, hSelf]
          · intro Kicked
            simp [KickMember, hMember, hSelf]
        · simp [hMember, hLeader, hSelf, hTarget] at hPromoted
    · simp [hMember, hLeader] at hPromoted
  · simp [hMember] at hPromoted

/-- Witness for C18: in the party led by "alice" with members "alice" and "bob", "alice"
promoting "bob" succeeds; then "bob" is the leader, "alice" is not, and "alice" kicking
"bob" is rejected with `LocalMemberNotLeader`. -/
theorem PromoteMember_then_leader_witness :
    (PromoteMember "alice" (SampleParty 0 ["alice", "bob"]) "bob").1
      = EPromoteMemberCompletionResult.Succeeded
    ∧ IsMemberLeader "alice" (PromoteMember "alice" (SampleParty 0 ["alice", "bob"]) "bob").2
        "bob" = true
    ∧ IsMemberLeader "alice" (PromoteMember "alice" (SampleParty 0 ["alice", "bob"]) "bob").2
        "alice" = false
    ∧ (KickMember "alice" (PromoteMember "alice" (SampleParty 0 ["alice", "bob"]) "bob").2
        "bob").1 = EKickMemberCompletionResult.LocalMemberNotLeader :=
  have h := PromoteMember_then_leader "alice" "bob" (SampleParty 0 ["alice", "bob"])
    (by decide)
  ⟨by decide, h.1, (h.2.2 "alice" rfl).1,
    congrArg Prod.fst ((h.2.2 "alice" rfl).2 "bob")⟩

theorem JoinParty_Party (LocalUserId : FUniqueNetId)
    (Party : FCachedParty FOnlinePartyId FUniqueNetId FVariantData) :
    (JoinParty LocalUserId Party).2.Party = Party.Party := by
  unfold JoinParty
  split
  · rfl
  · split <;> rfl

theorem JoinParty_keeps_bound (LocalUserId : FUniqueNetId)
    (Party : FCachedParty FOnlinePartyId FUniqueNetId FVariantData)
    (hPositive : 0 < Party.Party.Config.MaxMembers)
    (hBound : (Party.Members.length : Int) ≤ Party.Party.Config.MaxMembers) :
    ((JoinParty LocalUserId Party).2.Members.length : Int) ≤ Party.Party.Config.MaxMembers := by
  unfold JoinParty
  split
  · exact hBound
  · split
    · exact hBound
    · rename_i hFull
      have hLess : (Party.Members.length : Int) < Party.Party.Config.MaxMembers := by
        by_contra hNot
        exact hFull ⟨hPositive, not_lt.mp hNot⟩
      simp only [List.length_append, List.length_singleton, Nat.cast_add, Nat.cast_one]
      omega

theorem JoinPartyAll_keeps_bound (Attempts : List FUniqueNetId) :
    ∀ Party : FCachedParty FOnlinePartyId FUniqueNetId FVariantData,
      0 < Party.Party.Config.MaxMembers →
      (Party.Members.length : Int) ≤ Party.Party.Config.MaxMembers →
      ((JoinPartyAll Attempts Party).2.Members.length : Int) ≤ Party.Party.Config.MaxMembers
      ∧ (JoinPartyAll Attempts Party).2.Party = Party.Party := by
  induction Attempts with
  | nil => intro Party _ hBound; exact ⟨hBound, rfl⟩
  | cons LocalUserId rest ih =>
    intro Party hPositive hBound
    have hStep := JoinParty_keeps_bound LocalUserId Party hPositive hBound
    have hSame := JoinParty_Party LocalUserId Party
    have hRest := ih (JoinParty LocalUserId Party).2 (by rw [hSame]; exact hPositive)
      (by rw [hSame]; exact hStep)
    rw [hSame] at hRest
    exact ⟨hRest.1, hRest.2⟩

theorem JoinPartyAll_append (First Second : List FUniqueNetId) :
    ∀ Party : FCachedParty FOnlinePartyId FUniqueNetId FVariantData,
      JoinPartyAll (First ++ Second) Party
        = ((JoinPartyAll First Party).1 ++ (JoinPartyAll Second (JoinPartyAll First Party).2).1,
            (JoinPartyAll Second (JoinPartyAll First Party).2).2) := by
  induction First with
  | nil => intro Party; rfl
  | cons LocalUserId rest ih =>
    intro Party
    have hRest := ih (JoinParty LocalUserId Party).2
    show ((JoinParty LocalUserId Party).1
          :: (JoinPartyAll (rest ++ Second) (JoinParty LocalUserId Party).2).1,
        (JoinPartyAll (rest ++ Second) (JoinParty LocalUserId Party).2).2) = _
    rw [hRest]
    rfl

theorem JoinPartyAll_admits (Users : List FUniqueNetId) :
    ∀ Party : FCachedParty FOnlinePartyId FUniqueNetId FVariantData,
      Users.Nodup →
      (∀ User, User ∈ Users → User ∉ Party.Members) →
      (Party.Party.Config.MaxMembers ≤ 0
        ∨ ((Party.Members.length : Int) + (Users.length : Int)
            ≤ Party.Party.Config.MaxMembers)) →
      JoinPartyAll Users Party
        = (List.replicate Users.length EJoinPartyCompletionResult.Succeeded,
            FCachedParty.mk Party.Party (Party.Members ++ Users)) := by
  induction Users with
  | nil =>
    intro Party _ _ _
    simp [JoinPartyAll]
  | cons LocalUserId rest ih =>
    intro Party hNodup hNew hRoom
    have hNodup2 : LocalUserId ∉ rest ∧ rest.Nodup := List.nodup_cons.mp hNodup
    have hNotMember : LocalUserId ∉ Party.Members := hNew LocalUserId (List.mem_cons_self _ _)
    have hNotFull : ¬ (0 < Party.Party.Config.MaxMembers
        ∧ Party.Party.Config.MaxMembers ≤ (Party.Members.length : Int)) := by
      rintro ⟨h1, h2⟩
      rcases hRoom with h3 | h3
      · omega
      · simp only [List.length_cons, Nat.cast_add, Nat.cast_one] at h3
        omega
    have hJoin : JoinParty LocalUserId Party
        = (EJoinPartyCompletionResult.Succeeded,
            FCachedParty.mk Party.Party (Party.Members ++ [LocalUserId])) := by
      simp [JoinParty, hNotMember, hNotFull]
    have hRest := ih (FCachedParty.mk Party.Party (Party.Members ++ [LocalUserId])) hNodup2.2
      (by
        intro User hUser hmem
        rcases List.mem_append.mp hmem with h | h
        · exact hNew User (List.mem_cons_of_mem _ hUser) h
        · rw [List.mem_singleton] at h
          exact hNodup2.1 (h ▸ hUser))
      (by
        rcases hRoom with h3 | h3
        · exact Or.inl h3
        · right
          simp only [List.length_cons, Nat.cast_add, Nat.cast_one] at h3
          simp only [List.length_append, List.length_singleton, Nat.cast_add, Nat.cast_one]
          omega)
    simp only [JoinPartyAll, hJoin, hRest, List.length_cons, List.replicate_succ,
      List.append_assoc, List.singleton_append]

/-- C19: a party whose configuration has `MaxMembers = N > 0` and that holds at most `N`
members never holds more than `N`, whatever join attempts are made; when it holds `N`
members a join attempt is rejected with `NoSpace`; of join attempts by new users the
first ones are admitted up to `N` members and the one for member `N + 1` is rejected
with `NoSpace`; and a party with `MaxMembers = 0` admits every one of any number of
join attempts by new users. -/
theorem JoinParty_capacity (Party : FCachedParty FOnlinePartyId FUniqueNetId FVariantData)
    (Users : List FUniqueNetId) (hNodup : Users.Nodup)
    (hNew : ∀ User, User ∈ Users → User ∉ Party.Members) :
    (0 < Party.Party.Config.MaxMembers →
      (Party.Members.length : Int) ≤ Party.Party.Config.MaxMembers →
      ∀ Attempts : List FUniqueNetId,
        ((JoinPartyAll Attempts Party).2.Members.length : Int) ≤ Party.Party.Config.MaxMembers
        ∧ (JoinPartyAll Attempts Party).2.Party.Config.MaxMembers
            = Party.Party.Config.MaxMembers)
    ∧ (0 < Party.Party.Config.MaxMembers →
      (Party.Members.length : Int) = Party.Party.Config.MaxMembers →
      ∀ LocalUserId : FUniqueNetId, LocalUserId ∉ Party.Members →
        JoinParty LocalUserId Party = (EJoinPartyCompletionResult.NoSpace, Party))
    ∧ (0 < Party.Party.Config.MaxMembers →
      (Party.Members.length : Int) ≤ Party.Party.Config.MaxMembers →
      (Party.Members.length : Int) + (Users.length : Int) = Party.Party.Config.MaxMembers + 1 →
      (JoinPartyAll Users Party).1
          = List.replicate (Users.length - 1) EJoinPartyCompletionResult.Succeeded
              ++ [EJoinPartyCompletionResult.NoSpace]
      ∧ ((JoinPartyAll Users Party).2.Members.length : Int) = Party.Party.Config.MaxMembers)
    ∧ (Party.Party.Config.MaxMembers = 0 →
      JoinPartyAll Users Party
        = (List.replicate Users.length EJoinPartyCompletionResult.Succeeded,
            FCachedParty.mk Party.Party (Party.Members ++ Users))) := by
  refine ⟨?_, ?_, ?_, ?_⟩
  · intro hPositive hBound Attempts
    have h := JoinPartyAll_keeps_bound Attempts Party hPositive hBound
    exact ⟨h.1, by rw [h.2]⟩
  · intro hPositive hFull LocalUserId hNotMember
    have hCond : 0 < Party.Party.Config.MaxMembers
        ∧ Party.Party.Config.MaxMembers ≤ (Party.Members.length : Int) :=
      ⟨hPositive, le_of_eq hFull.symm⟩
    simp [JoinParty, hNotMember, hCond]
  · intro hPositive hBound hCount
    rcases List.eq_nil_or_concat Users with hNil | ⟨Admitted, Last, hConcat⟩
    · subst hNil
      simp only [List.length_nil, Nat.cast_zero, add_zero] at hCount
      omega
    · have hSplit : Users = Admitted ++ [Last] := by
        rw [hConcat, List.concat_eq_append]
      subst hSplit
      have hParts : Admitted.Nodup ∧ Last ∉ Admitted := by
        have h := List.nodup_append.mp hNodup
        refine ⟨h.1, fun hmem => ?_⟩
        exact h.2.2 hmem (List.mem_singleton.mpr rfl)
      have hRoom : (Party.Members.length : Int) + (Admitted.length : Int)
          = Party.Party.Config.MaxMembers := by
        simp only [List.length_append, List.length_singleton, Nat.cast_add, Nat.cast_one]
          at hCount
        omega
      have hAdmitted := JoinPartyAll_admits Admitted Party hParts.1
        (fun User hUser => hNew User (List.mem_append_left _ hUser))
        (Or.inr (le_of_eq hRoom))
      have hLastNew : Last ∉ Party.Members ++ Admitted := by
        intro hmem
        rcases List.mem_append.mp hmem with h | h
        · exact hNew Last (List.mem_append_right _ (List.mem_singleton.mpr rfl)) h
        · exact hParts.2 h
      have hCond : 0 < Party.Party.Config.MaxMembers
          ∧ Party.Party.Config.MaxMembers ≤ ((Party.Members ++ Admitted).length : Int) := by
        refine ⟨hPositive, ?_⟩
        simp only [List.length_append, Nat.cast_add]
        omega
      have hLast : JoinParty Last (FCachedParty.mk Party.Party (Party.Members ++ Admitted))
          = (EJoinPartyCompletionResult.NoSpace,
              FCachedParty.mk Party.Party (Party.Members ++ Admitted)) := by
        unfold JoinParty
        rw [if_neg hLastNew, if_pos hCond]
      rw [JoinPartyAll_append, hAdmitted]
      simp only [JoinPartyAll, hLast, List.length_append, List.length_singleton,
        Nat.add_sub_cancel, Nat.cast_add]
      exact ⟨trivial, hRoom⟩
  · intro hZero
    exact JoinPartyAll_admits Users Party hNodup hNew (Or.inl (le_of_eq hZero))

/-- Witness for C19: "bob" and "carol" are new to the party of "alice" with
`MaxMembers = 2`: "bob" is admitted and "carol", who would be the third member, gets
`NoSpace`; with `MaxMembers = 0` "bob", "carol" and "dave" are all admitted. -/
theorem JoinParty_capacity_witness :
    ["bob", "carol"].Nodup
    ∧ (∀ User, User ∈ ["bob", "carol"] → User ∉ (SampleParty 2 ["alice"]).Members)
    ∧ (JoinPartyAll ["bob", "carol"] (SampleParty 2 ["alice"])).1
        = [EJoinPartyCompletionResult.Succeeded, EJoinPartyCompletionResult.NoSpace]
    ∧ (JoinPartyAll ["bob", "carol", "dave"] (SampleParty 0 ["alice"])).1
        = [EJoinPartyCompletionResult.Succeeded, EJoinPartyCompletionResult.Succeeded,
            EJoinPartyCompletionResult.Succeeded] :=
  ⟨by decide, by decide,
    ((JoinParty_capacity (SampleParty 2 ["alice"]) ["bob", "carol"] (by decide)
      (by decide)).2.2.1 (by decide) (by decide) (by decide)).1,
    congrArg Prod.fst ((JoinParty_capacity (SampleParty 0 ["alice"]) ["bob", "carol", "dave"]
      (by decide) (by decide)).2.2.2 rfl)⟩

end PartyCoordinator

/-! ## Writing to JSON, commuting sets and the default configuration -/

namespace FOnlinePartyData

variable {FVariantData : Type}

/-- C21: `ToJson` produces the text of a JSON object whose only field is "Attrs", an
array holding exactly one record per attribute of the blob in the blob's iteration
order, each record being the encoding of the value with its "Name" field set to the
attribute's key; the empty blob gives an empty array, and whatever the output string
held before the call is discarded. -/
theorem ToJson_shape (Json : FJsonSerializer) (Variant : FVariantDataJson FVariantData)
    (d : FOnlinePartyData FVariantData) (JsonString : String) :
    ToJson Json Variant d JsonString
        = Json.Serialize
            [("Attrs", FJsonValue.Array (d.KeyValAttrs.map fun Iterator =>
              FJsonValue.Object ((Variant.ToJson Iterator.2).SetStringField "Name" Iterator.1)))]
    ∧ (d.KeyValAttrs.map fun Iterator =>
          FJsonValue.Object ((Variant.ToJson Iterator.2).SetStringField "Name" Iterator.1)).length
        = d.KeyValAttrs.length
    ∧ (∀ (Name : String) (Value : FVariantData),
        ((Variant.ToJson Value).SetStringField "Name" Name).TryGetStringField "Name" = some Name
        ∧ ∀ Field : String, Field ≠ "Name" →
            TMap.Find ((Variant.ToJson Value).SetStringField "Name" Name) Field
              = TMap.Find (Variant.ToJson Value) Field)
    ∧ ToJson Json Variant (new : FOnlinePartyData FVariantData) JsonString
        = Json.Serialize [("Attrs", FJsonValue.Array [])]
    ∧ (∀ Other : String, ToJson Json Variant d Other = ToJson Json Variant d JsonString) := by
  have hObject : ∀ b : FOnlinePartyData FVariantData, ToJsonObject Variant b
      = [("Attrs", FJsonValue.Array (b.KeyValAttrs.map fun Iterator =>
          FJsonValue.Object ((Variant.ToJson Iterator.2).SetStringField "Name" Iterator.1)))] := by
    intro b
    simp [ToJsonObject, ToJsonProperties_eq_map, FJsonObject.SetArrayField, FJsonObject.new,
      TMap.Add]
  have hText : ∀ (b : FOnlinePartyData FVariantData) (Text : String),
      ToJson Json Variant b Text = Json.Serialize (ToJsonObject Variant b) := by
    intro b Text
    simp [ToJson, FString.Empty]
  refine ⟨?_, ?_, ?_, ?_, ?_⟩
  · rw [hText, hObject]
  · simp
  · intro Name Value
    refine ⟨FJsonObject.TryGetStringField_SetStringField _ _ _, fun Field hField => ?_⟩
    exact TMap.Find_Add_of_ne _ _ _ _ hField
  · rw [hText, hObject]
    rfl
  · intro Other
    rw [hText, hText]

/-- C22: for two distinct keys the two `SetAttribute` calls commute: setting `k1` and
then `k2`, and setting `k2` and then `k1`, on the same blob give blobs with the same
keys and the same value at every key. -/
theorem SetAttribute_commute [Inhabited FVariantData] (d : FOnlinePartyData FVariantData)
    (k1 k2 : String) (v1 v2 : FVariantData) (hDistinct : k1 ≠ k2) :
    (∀ Name : String,
        HasKey (SetAttribute (SetAttribute d k1 v1) k2 v2) Name
          ↔ HasKey (SetAttribute (SetAttribute d k2 v2) k1 v1) Name)
    ∧ (∀ Name : String,
        (SetAttribute (SetAttribute d k1 v1) k2 v2).KeyValAttrs.Find Name
          = (SetAttribute (SetAttribute d k2 v2) k1 v1).KeyValAttrs.Find Name)
    ∧ (∀ (Name : String) (Out : FVariantData),
        (GetAttribute (SetAttribute (SetAttribute d k1 v1) k2 v2) Name Out).OutAttrValue
          = (GetAttribute (SetAttribute (SetAttribute d k2 v2) k1 v1) Name Out).OutAttrValue) := by
  have hFind : ∀ Name : String,
      (SetAttribute (SetAttribute d k1 v1) k2 v2).KeyValAttrs.Find Name
        = (SetAttribute (SetAttribute d k2 v2) k1 v1).KeyValAttrs.Find Name := by
    intro Name
    simp only [SetAttribute_eq_Add]
    by_cases h1 : Name = k1
    · subst h1
      rw [TMap.Find_Add_of_ne _ _ _ _ hDistinct, TMap.Find_Add_self, TMap.Find_Add_self]
    · by_cases h2 : Name = k2
      · subst h2
        rw [TMap.Find_Add_self, TMap.Find_Add_of_ne _ _ _ _ h1, TMap.Find_Add_self]
      · rw [TMap.Find_Add_of_ne _ _ _ _ h2, TMap.Find_Add_of_ne _ _ _ _ h1,
          TMap.Find_Add_of_ne _ _ _ _ h1, TMap.Find_Add_of_ne _ _ _ _ h2]
  refine ⟨fun Name => ?_, hFind, fun Name Out => ?_⟩
  · simp only [HasKey, SetAttribute_eq_Add, TMap.mem_Keys_Add]
    tauto
  · simp only [GetAttribute, hFind]

/-- Witness for C22: "Map" and "Mode" are distinct keys; set in either order on the
empty blob they give the same value at "Map" and at "Mode", in a different iteration
order. -/
theorem SetAttribute_commute_witness :
    "Map" ≠ "Mode"
    ∧ (SetAttribute (SetAttribute (new : FOnlinePartyData Int) "Map" 1) "Mode" 2).KeyValAttrs.Find "Map"
        = (SetAttribute (SetAttribute (new : FOnlinePartyData Int) "Mode" 2) "Map" 1).KeyValAttrs.Find "Map"
    ∧ (SetAttribute (SetAttribute (new : FOnlinePartyData Int) "Map" 1) "Mode" 2).KeyValAttrs.Find "Mode"
        = (SetAttribute (SetAttribute (new : FOnlinePartyData Int) "Mode" 2) "Map" 1).KeyValAttrs.Find "Mode"
    ∧ SetAttribute (SetAttribute (new : FOnlinePartyData Int) "Map" 1) "Mode" 2
        = ⟨[("Map", 1), ("Mode", 2)]⟩
    ∧ SetAttribute (SetAttribute (new : FOnlinePartyData Int) "Mode" 2) "Map" 1
        = ⟨[("Mode", 2), ("Map", 1)]⟩ :=
  have h := SetAttribute_commute (new : FOnlinePartyData Int) "Map" "Mode" 1 2 (by decide)
  ⟨by decide, h.2.1 "Map", h.2.1 "Mode", by decide, by decide⟩

end FOnlinePartyData

/-- C26: a default-constructed `FPartyConfiguration` has `JoinRequestAction = Manual`,
`PresencePermissions = AnyonePublishIdAnyonePublishKey`, `InvitePermissions = Leader`,
`bShouldRemoveOnDisconnection = false`, `bIsAcceptingMembers = false`,
`NotAcceptingMembersReason = 0`, `MaxMembers = 0`, empty `Nickname`, `Description` and
`Password`, and an empty `ClientConfigData` blob. -/
theorem FPartyConfiguration_new_fields (FVariantData : Type) :
    (FPartyConfiguration.new : FPartyConfiguration FVariantData).JoinRequestAction
        = EJoinRequestAction.Manual
    ∧ (FPartyConfiguration.new : FPartyConfiguration FVariantData).PresencePermissions
        = PartySystemPermissions.EPresencePermissions.AnyonePublishIdAnyonePublishKey
    ∧ (FPartyConfiguration.new : FPartyConfiguration FVariantData).InvitePermissions
        = PartySystemPermissions.EInvitePermissions.Leader
    ∧ (FPartyConfiguration.new : FPartyConfiguration FVariantData).bShouldRemoveOnDisconnection
        = false
    ∧ (FPartyConfiguration.new : FPartyConfiguration FVariantData).bIsAcceptingMembers = false
    ∧ (FPartyConfiguration.new : FPartyConfiguration FVariantData).NotAcceptingMembersReason = 0
    ∧ (FPartyConfiguration.new : FPartyConfiguration FVariantData).MaxMembers = 0
    ∧ (FPartyConfiguration.new : FPartyConfiguration FVariantData).Nickname = ""
    ∧ (FPartyConfiguration.new : FPartyConfiguration FVariantData).Description = ""
    ∧ (FPartyConfiguration.new : FPartyConfiguration FVariantData).Password = ""
    ∧ (FPartyConfiguration.new : FPartyConfiguration FVariantData).ClientConfigData.KeyValAttrs
        = []
    ∧ (∀ Name : String, ¬ FOnlinePartyData.HasKey
        (FPartyConfiguration.new : FPartyConfiguration FVariantData).ClientConfigData Name) := by
  refine ⟨rfl, rfl, rfl, rfl, rfl, rfl, rfl, rfl, rfl, rfl, rfl, ?_⟩
  intro Name h
  simp [FOnlinePartyData.HasKey, FPartyConfiguration.new, FOnlinePartyData.new, TMap.Keys] at h

/-! ## Presence aliases, the permission encoding and the names of enumerators -/

namespace PartySystemPermissions

/-- C23: each of the six named presence aliases is one of the ten `EPresencePermissions`
values: `FriendsInviteOnly`, `FriendsOfFriendsInviteOnly` and `PublicInviteOnly` decode
to (Leader, None), (Friend, None) and (Anyone, None), publishing no key; `FriendsOnly`,
`FriendsOfFriendsOnly` and `Public` decode to (Leader, Leader), (Friend, Friend) and
(Anyone, Anyone), publishing the key to the audience of the id. -/
theorem presence_aliases_decode :
    FriendsInviteOnly = EPresencePermissions.LeaderPublishIdNonePublishKey
    ∧ FriendsOfFriendsInviteOnly = EPresencePermissions.FriendPublishIdNonePublishKey
    ∧ PublicInviteOnly = EPresencePermissions.AnyonePublishIdNonePublishKey
    ∧ FriendsOnly = EPresencePermissions.LeaderPublishIdLeaderPublishKey
    ∧ FriendsOfFriendsOnly = EPresencePermissions.FriendPublishIdFriendPublishKey
    ∧ Public = EPresencePermissions.AnyonePublishIdAnyonePublishKey
    ∧ DecodePresencePermissions FriendsInviteOnly.toUInt8
        = some (EPermissionType.Leader, EPermissionType.None)
    ∧ DecodePresencePermissions FriendsOfFriendsInviteOnly.toUInt8
        = some (EPermissionType.Friend, EPermissionType.None)
    ∧ DecodePresencePermissions PublicInviteOnly.toUInt8
        = some (EPermissionType.Anyone, EPermissionType.None)
    ∧ DecodePresencePermissions FriendsOnly.toUInt8
        = some (EPermissionType.Leader, EPermissionType.Leader)
    ∧ DecodePresencePermissions FriendsOfFriendsOnly.toUInt8
        = some (EPermissionType.Friend, EPermissionType.Friend)
    ∧ DecodePresencePermissions Public.toUInt8
        = some (EPermissionType.Anyone, EPermissionType.Anyone) := by
  refine ⟨rfl, rfl, rfl, rfl, rfl, rfl, ?_, ?_, ?_, ?_, ?_, ?_⟩ <;> decide

/-- C24: the encoding `Value = (idPermission << 4) | keyPermission` is lossless. For all
16 pairs the value before the conversion to `uint8` is below 256, so nothing is cut off,
and at most 0x44, the value of (Anyone, Anyone); distinct pairs give distinct values;
and the pair is recovered as `id = Value >> 4`, `key = Value & 0x0F`. -/
theorem permission_encoding_lossless :
    (∀ IdPermission KeyPermission : EPermissionType,
        (IdPermission.toUInt8 <<< 4) ||| KeyPermission.toUInt8 < 2 ^ 8
        ∧ FPublishPermissionBuilder.Value IdPermission KeyPermission
            = (IdPermission.toUInt8 <<< 4) ||| KeyPermission.toUInt8
        ∧ FPublishPermissionBuilder.Value IdPermission KeyPermission ≤ 0x44
        ∧ FPublishPermissionBuilder.Value IdPermission KeyPermission >>> 4
            = IdPermission.toUInt8
        ∧ FPublishPermissionBuilder.Value IdPermission KeyPermission &&& 0x0F
            = KeyPermission.toUInt8
        ∧ DecodePresencePermissions (FPublishPermissionBuilder.Value IdPermission KeyPermission)
            = some (IdPermission, KeyPermission))
    ∧ FPublishPermissionBuilder.Value EPermissionType.Anyone EPermissionType.Anyone = 0x44
    ∧ (∀ Id1 Key1 Id2 Key2 : EPermissionType,
        FPublishPermissionBuilder.Value Id1 Key1 = FPublishPermissionBuilder.Value Id2 Key2 →
        Id1 = Id2 ∧ Key1 = Key2) := by
  refine ⟨?_, by decide, ?_⟩
  · intro IdPermission KeyPermission
    cases IdPermission <;> cases KeyPermission <;> decide
  · intro Id1 Key1 Id2 Key2
    cases Id1 <;> cases Key1 <;> cases Id2 <;> cases Key2 <;> decide

/-- C29: `ToString(EPresencePermissions)` is total and injective on the ten permission
values and agrees with the encoding: a value decodes, by its high and low nibble, to an
id and a key permission, and its string is "DoNotPublish" for (None, None) and otherwise
the name of the id permission, "PublishId", the name of the key permission and
"PublishKey". -/
theorem EPresencePermissions_ToString_agrees_with_encoding :
    (∀ Value : EPresencePermissions, Value.ToString ≠ "")
    ∧ (∀ First Second : EPresencePermissions, First.ToString = Second.ToString →
        First = Second)
    ∧ (∀ Value : EPresencePermissions,
        DecodePresencePermissions Value.toUInt8 = some Value.BuilderArguments
        ∧ Value.ToString
            = PresencePermissionsText Value.BuilderArguments.1 Value.BuilderArguments.2)
    ∧ EPresencePermissions.DoNotPublish.toUInt8
        = FPublishPermissionBuilder.Value EPermissionType.None EPermissionType.None
    ∧ EPresencePermissions.DoNotPublish.ToString = "DoNotPublish"
    ∧ PresencePermissionsText EPermissionType.Anyone EPermissionType.Friend
        = "AnyonePublishIdFriendPublishKey" := by
  refine ⟨?_, ?_, ?_, rfl, rfl, by decide⟩
  · intro Value
    cases Value <;> decide
  · intro First Second
    cases First <;> cases Second <;> decide
  · intro Value
    cases Value <;> exact ⟨by decide, by decide⟩

end PartySystemPermissions

/-- C27 (the code departs from it): every member of a completion-result enumeration with
a `ToString` overload should get a non-empty string. `ToString` has no `case` for
`ECreatePartyCompletionResult::AlreadyInPartyOfSpecifiedType` and returns the empty
fallback for it, as it does for `BadBuild` and `AlreadyInPartyOfSpecifiedType` of
`EJoinPartyCompletionResult`, `NotMember` of `ELeavePartyCompletionResult`, and
`UnknownServiceFailure` and `PromotionAlreadyPending` of
`EPromoteMemberCompletionResult`; the overloads for `EUpdateConfigCompletionResult`,
`EKickMemberCompletionResult` and `ESendPartyInvitationCompletionResult` name every
member. -/
theorem ToString_unnamed_completion_results :
    ECreatePartyCompletionResult.AlreadyInPartyOfSpecifiedType.ToString = ""
    ∧ EJoinPartyCompletionResult.BadBuild.ToString = ""
    ∧ EJoinPartyCompletionResult.AlreadyInPartyOfSpecifiedType.ToString = ""
    ∧ ELeavePartyCompletionResult.NotMember.ToString = ""
    ∧ EPromoteMemberCompletionResult.UnknownServiceFailure.ToString = ""
    ∧ EPromoteMemberCompletionResult.PromotionAlreadyPending.ToString = ""
    ∧ (∀ Value : EUpdateConfigCompletionResult, Value.ToString ≠ "")
    ∧ (∀ Value : EKickMemberCompletionResult, Value.ToString ≠ "")
    ∧ (∀ Value : ESendPartyInvitationCompletionResult, Value.ToString ≠ "") := by
  refine ⟨rfl, rfl, rfl, rfl, rfl, rfl, ?_, ?_, ?_⟩ <;> intro Value <;> cases Value <;> decide

/-- C28: no `ToString` overload for a completion-result enumeration mislabels a member:
in each of the seven enumerations with an overload, a member for which `ToString`
returns a non-empty string gets exactly its own identifier, and two different members
never share a non-empty name. -/
theorem ToString_labels_no_member_wrongly :
    LabelsNoMemberWrongly ECreatePartyCompletionResult.ToString ECreatePartyCompletionResult.Identifier
    ∧ LabelsNoMemberWrongly EJoinPartyCompletionResult.ToString EJoinPartyCompletionResult.Identifier
    ∧ LabelsNoMemberWrongly ELeavePartyCompletionResult.ToString ELeavePartyCompletionResult.Identifier
    ∧ LabelsNoMemberWrongly EUpdateConfigCompletionResult.ToString EUpdateConfigCompletionResult.Identifier
    ∧ LabelsNoMemberWrongly EKickMemberCompletionResult.ToString EKickMemberCompletionResult.Identifier
    ∧ LabelsNoMemberWrongly EPromoteMemberCompletionResult.ToString EPromoteMemberCompletionResult.Identifier
    ∧ LabelsNoMemberWrongly ESendPartyInvitationCompletionResult.ToString ESendPartyInvitationCompletionResult.Identifier := by
  refine ⟨?_, ?_, ?_, ?_, ?_, ?_, ?_⟩ <;> decide

/-! ## Repeated names in the JSON form -/

namespace FOnlinePartyData

variable {FVariantData : Type}

theorem AddAll_concat (KeyValAttrs : FOnlineKeyValuePairs String FVariantData)
    (Attributes : List (String × FVariantData)) (Attribute : String × FVariantData) :
    AddAll KeyValAttrs (Attributes ++ [Attribute])
      = TMap.Add (AddAll KeyValAttrs Attributes) Attribute.1 Attribute.2 := by
  simp [AddAll, List.foldl_append]

theorem UniqueKeys_AddAll (Attributes : List (String × FVariantData)) :
    ∀ KeyValAttrs : FOnlineKeyValuePairs String FVariantData,
      TMap.UniqueKeys KeyValAttrs → TMap.UniqueKeys (AddAll KeyValAttrs Attributes) := by
  induction Attributes with
  | nil => intro KeyValAttrs h; exact h
  | cons Attribute rest ih =>
    intro KeyValAttrs h
    exact ih _ (TMap.UniqueKeys_Add KeyValAttrs Attribute.1 Attribute.2 h)

theorem Find_AddAll (KeyValAttrs : FOnlineKeyValuePairs String FVariantData)
    (Attributes : List (String × FVariantData)) (Name : String) :
    TMap.Find (AddAll KeyValAttrs Attributes) Name
      = match (Attributes.filter fun Attribute => decide (Attribute.1 = Name)).getLast? with
        | some Last => some Last.2
        | none => TMap.Find KeyValAttrs Name := by
  induction Attributes using List.reverseRecOn with
  | nil => rfl
  | append_singleton rest Attribute ih =>
    rw [AddAll_concat, List.filter_append]
    by_cases hName : Attribute.1 = Name
    · have hFilter : List.filter (fun Attribute => decide (Attribute.1 = Name)) [Attribute]
          = [Attribute] := by
        simp [List.filter_cons, hName]
      rw [hFilter, List.getLast?_concat, ← hName, TMap.Find_Add_self]
    · have hFilter : List.filter (fun Attribute => decide (Attribute.1 = Name)) [Attribute]
          = [] := by
        simp [List.filter_cons, hName]
      rw [hFilter, List.append_nil, TMap.Find_Add_of_ne _ _ _ _ (Ne.symm hName), ih]

/-- C25: when the "Attrs" array given to `FromJson` holds well-formed records with the
same `Name`, one or several, the blob ends with that name exactly once, mapped to the
value of the last such record in array order. -/
theorem FromJson_repeated_name_last_wins (Json : FJsonSerializer)
    (Variant : FVariantDataJson FVariantData) (Prior : FOnlinePartyData FVariantData)
    (JsonString : String) (JsonObject : FJsonObject) (Records : List FJsonValue)
    (Name : String)
    (hRead : Json.Deserialize JsonString = some JsonObject)
    (hAttrs : TMap.Find JsonObject "Attrs" = some (FJsonValue.Array Records))
    (hNamed : ∃ Record, Record ∈ Records
      ∧ ∃ Value, WellFormedRecord Variant Record = some (Name, Value)) :
    (FromJson Json Variant Prior JsonString).KeyValAttrs.Keys.count Name = 1
    ∧ (FromJson Json Variant Prior JsonString).KeyValAttrs.UniqueKeys
    ∧ ∃ Last : String × FVariantData,
        ((Records.filterMap (WellFormedRecord Variant)).filter
            fun Attribute => decide (Attribute.1 = Name)).getLast? = some Last
        ∧ (FromJson Json Variant Prior JsonString).KeyValAttrs.Find Name = some Last.2 := by
  have hLoad := FromJson_of_Attrs Json Variant Prior JsonString JsonObject Records hRead hAttrs
  have hUnique : (FromJson Json Variant Prior JsonString).KeyValAttrs.UniqueKeys := by
    rw [hLoad]
    exact UniqueKeys_AddAll _ [] (by simp [TMap.UniqueKeys, TMap.Keys])
  obtain ⟨Record, hRecord, Value, hWell⟩ := hNamed
  have hMem : (Name, Value) ∈ (Records.filterMap (WellFormedRecord Variant)).filter
      fun Attribute => decide (Attribute.1 = Name) := by
    apply List.mem_filter.mpr
    exact ⟨List.mem_filterMap.mpr ⟨Record, hRecord, hWell⟩, by simp⟩
  cases hLast : ((Records.filterMap (WellFormedRecord Variant)).filter
      fun Attribute => decide (Attribute.1 = Name)).getLast? with
  | none =>
    rw [List.getLast?_eq_none_iff] at hLast
    rw [hLast] at hMem
    cases hMem
  | some Last =>
    have hFind : (FromJson Json Variant Prior JsonString).KeyValAttrs.Find Name
        = some Last.2 := by
      rw [hLoad]
      simp only [Find_AddAll, hLast]
    refine ⟨?_, hUnique, Last, rfl, hFind⟩
    apply List.count_eq_one_of_mem hUnique
    apply (TMap.Find_isSome_iff _ _).mp
    rw [hFind]
    rfl

/-- Witness for C25: a text whose "Attrs" array holds "Map" = "a", "Mode" = "b" and again
"Map" = "c". The sample reader reads it; the blob loaded has "Map" once, with the value
"c". -/
theorem FromJson_repeated_name_last_wins_witness :
    SampleJson.Json.Deserialize
        "\x7b\"Attrs\":[\x7b\"Type\":\"String\",\"Value\":\"a\",\"Name\":\"Map\"\x7d,\x7b\"Type\":\"String\",\"Value\":\"b\",\"Name\":\"Mode\"\x7d,\x7b\"Type\":\"String\",\"Value\":\"c\",\"Name\":\"Map\"\x7d]\x7d"
      = some [("Attrs", FJsonValue.Array
        [ FJsonValue.Object [("Type", .String "String"), ("Value", .String "a"), ("Name", .String "Map")],
          FJsonValue.Object [("Type", .String "String"), ("Value", .String "b"), ("Name", .String "Mode")],
          FJsonValue.Object [("Type", .String "String"), ("Value", .String "c"), ("Name", .String "Map")] ])]
    ∧ (FromJson SampleJson.Json SampleJson.StringVariant ⟨[("Old", "x")]⟩
        "\x7b\"Attrs\":[\x7b\"Type\":\"String\",\"Value\":\"a\",\"Name\":\"Map\"\x7d,\x7b\"Type\":\"String\",\"Value\":\"b\",\"Name\":\"Mode\"\x7d,\x7b\"Type\":\"String\",\"Value\":\"c\",\"Name\":\"Map\"\x7d]\x7d").KeyValAttrs.Keys.count "Map" = 1
    ∧ FromJson SampleJson.Json SampleJson.StringVariant ⟨[("Old", "x")]⟩
        "\x7b\"Attrs\":[\x7b\"Type\":\"String\",\"Value\":\"a\",\"Name\":\"Map\"\x7d,\x7b\"Type\":\"String\",\"Value\":\"b\",\"Name\":\"Mode\"\x7d,\x7b\"Type\":\"String\",\"Value\":\"c\",\"Name\":\"Map\"\x7d]\x7d"
      = ⟨[("Map", "c"), ("Mode", "b")]⟩ :=
  ⟨rfl,
    (FromJson_repeated_name_last_wins SampleJson.Json SampleJson.StringVariant
      ⟨[("Old", "x")]⟩
      "\x7b\"Attrs\":[\x7b\"Type\":\"String\",\"Value\":\"a\",\"Name\":\"Map\"\x7d,\x7b\"Type\":\"String\",\"Value\":\"b\",\"Name\":\"Mode\"\x7d,\x7b\"Type\":\"String\",\"Value\":\"c\",\"Name\":\"Map\"\x7d]\x7d"
      [("Attrs", FJsonValue.Array
        [ FJsonValue.Object [("Type", .String "String"), ("Value", .String "a"), ("Name", .String "Map")],
          FJsonValue.Object [("Type", .String "String"), ("Value", .String "b"), ("Name", .String "Mode")],
          FJsonValue.Object [("Type", .String "String"), ("Value", .String "c"), ("Name", .String "Map")] ])]
      [ FJsonValue.Object [("Type", .String "String"), ("Value", .String "a"), ("Name", .String "Map")],
          FJsonValue.Object [("Type", .String "String"), ("Value", .String "b"), ("Name", .String "Mode")],
          FJsonValue.Object [("Type", .String "String"), ("Value", .String "c"), ("Name", .String "Map")] ]
      "Map" rfl rfl
      ⟨FJsonValue.Object [("Type", .String "String"), ("Value", .String "a"), ("Name", .String "Map")],
        List.mem_cons_self _ _, "a", rfl⟩).1,
    by decide⟩

end FOnlinePartyData

/-! ## The navigation-relevant component -/

namespace UNavRelevantComponent

/-- C30: after `SetNavigationRelevancy(b)` the flag `bNavigationRelevant` equals `b`. When
the flag already equalled `b` nothing else happens; when it differed, exactly one owner
callback runs (`OnOwnerRegistered` if `b`, `OnOwnerUnregistered` otherwise), followed by
exactly one `RefreshNavigationModifiers`. Calling it twice with the same `b` has the
effect of calling it once. -/
theorem SetNavigationRelevancy_effect (This : UNavRelevantComponent) (bRelevant : Bool) :
    (This.SetNavigationRelevancy bRelevant).bNavigationRelevant = bRelevant
    ∧ (This.bNavigationRelevant = bRelevant → This.SetNavigationRelevancy bRelevant = This)
    ∧ (This.bNavigationRelevant ≠ bRelevant →
        (This.SetNavigationRelevancy bRelevant).Calls
            = (This.Calls
                ++ [if bRelevant then ENavRelevantCall.OnOwnerRegistered
                    else ENavRelevantCall.OnOwnerUnregistered]
                ++ [ENavRelevantCall.RefreshNavigationModifiers])
              ++ ((This.SetNavigationRelevancy bRelevant).Calls.drop (This.Calls.length + 2))
        ∧ CallsSince This (This.SetNavigationRelevancy bRelevant)
            ENavRelevantCall.OnOwnerRegistered = (if bRelevant then 1 else 0)
        ∧ CallsSince This (This.SetNavigationRelevancy bRelevant)
            ENavRelevantCall.OnOwnerUnregistered = (if bRelevant then 0 else 1)
        ∧ CallsSince This (This.SetNavigationRelevancy bRelevant)
            ENavRelevantCall.RefreshNavigationModifiers = 1)
    ∧ (This.SetNavigationRelevancy bRelevant).SetNavigationRelevancy bRelevant
        = This.SetNavigationRelevancy bRelevant := by
  obtain ⟨bFlag, bNav, bOwner, bSupplies, Calls⟩ := This
  cases bFlag <;> cases bRelevant <;> cases bNav <;> cases bOwner <;> cases bSupplies <;>
    simp [SetNavigationRelevancy, OnOwnerRegistered, OnOwnerUnregistered,
      RefreshNavigationModifiers, CallsSince]

end UNavRelevantComponent

end OnlineParty
